import Mathlib

/-!
# Task lifecycle supervisor (`main/task_base.cpp`)

A shallow embedding of `Parent` (the registry of child tasks, guarded by a
mutex) and `TaskBase` (a task with a back reference to its parent and a
scheduler handle), followed by theorems about registration, removal, forced
termination and self exit.

Objects live at addresses.  The world maps every `Parent` address to its
`m_children` list and every `TaskBase` address to its fields, and carries a
trace of the externally visible effects in program order.  Every trace entry
also records the registries as they stand when the effect happens.

Object lifetime is read off the trace.  A `TaskBase` object is dead once its
`delete` is recorded, and a later call or field access on it (`Cleanup`, a
read of `m_parent` or `m_taskid`, a second `delete`) is undefined in the
source.  The functions record such an access like any other; `usesFreed`
tells from a trace whether one happened.  What is proved about the teardown
done by `Parent::DeleteChildren` is proved for runs without such an access:
registries without repeated entries, whose entries are live.
-/

namespace OVMS

/-- Address of a `TaskBase` object (`TaskBase*`). -/
abbrev TaskPtr := Nat

/-- Address of a `Parent` object (`Parent*`). -/
abbrev ParentPtr := Nat

/-- Scheduler handle of a task (`TaskHandle_t`). -/
abbrev TaskHandle_t := Nat

/-- Fields of a `TaskBase` object: `m_parent` is `none` for a null pointer. -/
structure TaskBase where
  m_parent : Option ParentPtr
  m_taskid : TaskHandle_t
  deriving DecidableEq, Repr

/-- Outcome of the scheduler call `xTaskCreate` / `xTaskCreatePinnedToCore`:
the value it returns, and on success the handle it writes through
`pxCreatedTask`. -/
inductive BaseType_t
  | pdPASS (handle : TaskHandle_t)
  | errCOULD_NOT_ALLOCATE_REQUIRED_MEMORY
  deriving DecidableEq, Repr

/-- Effects of the program, one constructor per call or access that the
source performs. -/
inductive Event
  | xSemaphoreTake (p : ParentPtr)
  | xSemaphoreGive (p : ParentPtr)
  | children_begin (p : ParentPtr)
  | children_empty (p : ParentPtr)
  | push_front (p : ParentPtr) (child : TaskPtr)
  | pop_front (p : ParentPtr)
  | erase_after (p : ParentPtr)
  | read_m_parent (t : TaskPtr)
  | read_m_taskid (t : TaskPtr)
  | Cleanup (t : TaskPtr)
  | vTaskDelete (h : TaskHandle_t)
  | delete (t : TaskPtr)
  | xTaskCreate (t : TaskPtr) (name : String) (stack : Int) (priority : Nat)
  | xTaskCreatePinnedToCore (t : TaskPtr) (name : String) (stack : Int) (priority : Nat)
      (core : Int)
  deriving DecidableEq, Repr

/-- One trace entry: the effect, and every registry at that moment. -/
structure Entry where
  ev : Event
  children : ParentPtr → List TaskPtr

/-- The state of the program. -/
structure World where
  m_children : ParentPtr → List TaskPtr
  tasks : TaskPtr → TaskBase
  trace : List Entry

/-- Append an effect to the trace, with a snapshot of the registries. -/
def World.log (w : World) (e : Event) : World :=
  { w with trace := w.trace ++ [⟨e, w.m_children⟩] }

/-- Replace the `m_children` list of the `Parent` at address `p`. -/
def World.setChildren (w : World) (p : ParentPtr) (l : List TaskPtr) : World :=
  { w with m_children := Function.update w.m_children p l }

/-- Replace the `m_taskid` field of the `TaskBase` at address `t`. -/
def World.setTaskid (w : World) (t : TaskPtr) (h : TaskHandle_t) : World :=
  { w with tasks := Function.update w.tasks t { w.tasks t with m_taskid := h } }

/-- The effects of the trace, in program order. -/
def World.events (w : World) : List Event :=
  w.trace.map Entry.ev

/-- The effects that `w2` has recorded beyond those of `w1`. -/
def newEvents (w1 w2 : World) : List Event :=
  w2.events.drop w1.events.length

/-! ## Parent -/

/-- `Parent::AddChild`: take the mutex, `push_front`, give the mutex. -/
def Parent.AddChild (this : ParentPtr) (child : TaskPtr) (w : World) : World :=
  let w := w.log (.xSemaphoreTake this)
  let w := (w.setChildren this (child :: w.m_children this)).log (.push_front this child)
  w.log (.xSemaphoreGive this)

/-- The `for` loop of `Parent::RemoveChild`.  Iterator `at` is the element
`cur` together with the elements `pre` before it, iterator `after` is the
list that follows `cur`.  The result is `none` when `after` reaches the end,
and the list after `erase_after(at)` when `*after == child`. -/
def Parent.RemoveChild.scan (child : TaskPtr) :
    List TaskPtr → TaskPtr → List TaskPtr → Option (List TaskPtr)
  | _, _, [] => none
  | pre, cur, x :: rest =>
    if x = child then some (pre ++ cur :: rest)
    else Parent.RemoveChild.scan child (pre ++ [cur]) x rest

/-- `Parent::RemoveChild`: under the mutex, test the front element, else scan
the rest with a pair of iterators; the list is written only when the child
is found. -/
def Parent.RemoveChild (this : ParentPtr) (child : TaskPtr) (w : World) : Bool × World :=
  let w := w.log (.xSemaphoreTake this)
  let w := w.log (.children_begin this)
  let r : Bool × World :=
    match w.m_children this with
    | [] => (false, w)
    | first :: rest =>
      if first = child then
        (true, (w.setChildren this rest).log (.pop_front this))
      else
        match Parent.RemoveChild.scan child [] first rest with
        | some l => (true, (w.setChildren this l).log (.erase_after this))
        | none => (false, w)
  (r.1, r.2.log (.xSemaphoreGive this))

/-! ## TaskBase -/

/-- `TaskBase::Cleanup`: the virtual hook, empty in the base class.  The
trace records the invocation. -/
def TaskBase.Cleanup (this : TaskPtr) (w : World) : World :=
  w.log (.Cleanup this)

/-- `TaskBase::DeleteTask`: `Cleanup()`, `vTaskDelete(m_taskid)`,
`delete this`. -/
def TaskBase.DeleteTask (this : TaskPtr) (w : World) : World :=
  let w := TaskBase.Cleanup this w
  let w := w.log (.read_m_taskid this)
  let w := w.log (.vTaskDelete (w.tasks this).m_taskid)
  w.log (.delete this)

/-- `TaskBase::DeleteFromParent`: when `m_parent` is null or
`m_parent->RemoveChild(this)` is true, copy `m_taskid` to a local,
`delete this`, `vTaskDelete(taskid)`. -/
def TaskBase.DeleteFromParent (this : TaskPtr) (w : World) : World :=
  let w := w.log (.read_m_parent this)
  let c : Bool × World :=
    match (w.tasks this).m_parent with
    | none => (true, w)
    | some p => Parent.RemoveChild p this (w.log (.read_m_parent this))
  if c.1 then
    let w := c.2.log (.read_m_taskid this)
    let taskid := (w.tasks this).m_taskid
    let w := w.log (.delete this)
    w.log (.vTaskDelete taskid)
  else c.2

/-- `TaskBase::Task`: run the subclass's `Service`, then `DeleteFromParent`.
The result is the world in which the task's context stops making progress
(deleted by the scheduler, or spinning in `while (true)`). -/
def TaskBase.Task (Service : TaskPtr → World → World) (object : TaskPtr) (w : World) :
    World :=
  let me := object
  let w := Service me w
  TaskBase.DeleteFromParent me w

/-- `TaskBase::CreateTask`: call `xTaskCreate` with `&m_taskid`; the value the
scheduler returns is dropped and the function returns nothing. -/
def TaskBase.CreateTask (sched : BaseType_t) (this : TaskPtr) (name : String) (stack : Int)
    (priority : Nat) (w : World) : Unit × World :=
  let w := w.log (.xTaskCreate this name stack priority)
  match sched with
  | .pdPASS h => ((), w.setTaskid this h)
  | .errCOULD_NOT_ALLOCATE_REQUIRED_MEMORY => ((), w)

/-- `TaskBase::CreateTaskPinned`: as `CreateTask`, through
`xTaskCreatePinnedToCore`. -/
def TaskBase.CreateTaskPinned (sched : BaseType_t) (this : TaskPtr) (core : Int)
    (name : String) (stack : Int) (priority : Nat) (w : World) : Unit × World :=
  let w := w.log (.xTaskCreatePinnedToCore this name stack priority core)
  match sched with
  | .pdPASS h => ((), w.setTaskid this h)
  | .errCOULD_NOT_ALLOCATE_REQUIRED_MEMORY => ((), w)

/-- The world in which `TaskBase::DeleteFromParent` calls
`m_parent->RemoveChild(this)`: `m_parent` has been read for the null test
and for the call. -/
def TaskBase.DeleteFromParent.callWorld (this : TaskPtr) (w : World) : World :=
  (w.log (.read_m_parent this)).log (.read_m_parent this)

/-! ## Parent::DeleteChildren -/

/-- How one pass through the body of a `while (true)` loop ends. -/
inductive LoopStep
  | brk (w : World)
  | cont (w : World)

/-- One pass through the body of the loop of `Parent::DeleteChildren`.  The
call `child->DeleteTask()` is defined in the source only while the object at
`child` is live; the pass records the call either way, and `usesFreed` tells
from the trace whether the object had been released before. -/
def Parent.DeleteChildren.iter (this : ParentPtr) (w : World) : LoopStep :=
  let w := w.log (.xSemaphoreTake this)
  let w := w.log (.children_empty this)
  match w.m_children this with
  | [] => .brk (w.log (.xSemaphoreGive this))
  | child :: rest =>
    let w := w.log (.children_begin this)
    let w := (w.setChildren this rest).log (.pop_front this)
    let w := w.log (.xSemaphoreGive this)
    .cont (TaskBase.DeleteTask child w)

/-- The loop of `Parent::DeleteChildren`, cut off after `fuel` passes. -/
def Parent.DeleteChildren.loop (this : ParentPtr) : Nat → World → Option World
  | 0, _ => none
  | fuel + 1, w =>
    match Parent.DeleteChildren.iter this w with
    | .brk w1 => some w1
    | .cont w1 => Parent.DeleteChildren.loop this fuel w1

/-- `Parent::DeleteChildren`, with one pass per entry of the registry and one
more for the pass that finds it empty. -/
def Parent.DeleteChildren (this : ParentPtr) (w : World) : Option World :=
  Parent.DeleteChildren.loop this ((w.m_children this).length + 1) w

/-- World used by the examples: no registry has an entry, every task has
parent `0` and handle `100 + address`, nothing has happened. -/
def World.init : World :=
  { m_children := fun _ => []
    tasks := fun t => { m_parent := some 0, m_taskid := 100 + t }
    trace := [] }

/-- The example world with the registry of parent `0` set to `l`. -/
def World.ofChildren (l : List TaskPtr) : World :=
  World.init.setChildren 0 l

/-! ## Reading a trace -/

/-- The task whose `Cleanup` hook an effect invokes, if it is one. -/
def Event.cleanupOf : Event → Option TaskPtr
  | .Cleanup t => some t
  | _ => none

/-- Tasks whose `Cleanup` hook is invoked, in program order. -/
def cleanups (evs : List Event) : List TaskPtr :=
  evs.filterMap Event.cleanupOf

/-- Teardown effects: a `Cleanup` call, the deletion of a scheduler handle,
the release of a task object. -/
def Event.isTeardown : Event → Bool
  | .Cleanup _ => true
  | .vTaskDelete _ => true
  | .delete _ => true
  | _ => false

/-- Effects on a `Parent`: its mutex and its `m_children` list. -/
def Event.isRegistry : Event → Bool
  | .xSemaphoreTake _ => true
  | .xSemaphoreGive _ => true
  | .children_begin _ => true
  | .children_empty _ => true
  | .push_front _ _ => true
  | .pop_front _ => true
  | .erase_after _ => true
  | _ => false

/-- Accesses to the registry of `p`: taking its guard, reading its list,
changing its list. -/
def Event.isAccess (p : ParentPtr) : Event → Bool
  | .xSemaphoreTake q => q = p
  | .children_begin q => q = p
  | .children_empty q => q = p
  | .push_front q _ => q = p
  | .pop_front q => q = p
  | .erase_after q => q = p
  | _ => false

/-- The trace entries that `w2` has recorded beyond those of `w1`. -/
def newEntries (w1 w2 : World) : List Entry :=
  w2.trace.drop w1.trace.length

/-- For every `Cleanup` call of a trace, the registry of `p` at that
moment. -/
def cleanupSnapshots (p : ParentPtr) (tr : List Entry) : List (List TaskPtr) :=
  (tr.filter (fun e => e.ev.cleanupOf.isSome)).map (fun e => e.children p)

/-- The effects that come after the first `Cleanup` call. -/
def afterFirstCleanup (evs : List Event) : List Event :=
  (evs.dropWhile (fun e => e.cleanupOf.isNone)).tail

/-- The effects of one pass of `Parent::DeleteChildren` that pops `child`
with handle `h`. -/
def passEvents (p : ParentPtr) (child : TaskPtr) (h : TaskHandle_t) : List Event :=
  [.xSemaphoreTake p, .children_empty p, .children_begin p, .pop_front p, .xSemaphoreGive p,
   .Cleanup child, .read_m_taskid child, .vTaskDelete h, .delete child]

/-- Draining in one critical section, as a property of a finished
`DeleteChildren` call: the guard is taken once and given once, the registry
is empty at the first `Cleanup`, and no access to the registry follows the
first `Cleanup`. -/
def drainsInOneSection (p : ParentPtr) (w1 w2 : World) : Prop :=
  (newEvents w1 w2).count (.xSemaphoreTake p) = 1 ∧
  (newEvents w1 w2).count (.xSemaphoreGive p) = 1 ∧
  (∀ s, (cleanupSnapshots p (newEntries w1 w2)).head? = some s → s = []) ∧
  (afterFirstCleanup (newEvents w1 w2)).all (fun e => !e.isAccess p) = true

/-! ## Object lifetime -/

/-- The task object that an effect calls into or accesses, if any. -/
def Event.usedTask : Event → Option TaskPtr
  | .read_m_parent t => some t
  | .read_m_taskid t => some t
  | .Cleanup t => some t
  | .delete t => some t
  | _ => none

/-- The task object that an effect releases, if any. -/
def Event.deletedTask : Event → Option TaskPtr
  | .delete t => some t
  | _ => none

/-- The task objects that the effects of a trace call into or access. -/
def usedTasks (evs : List Event) : List TaskPtr :=
  evs.filterMap Event.usedTask

/-- The task objects that the effects of a trace release. -/
def deletedTasks (evs : List Event) : List TaskPtr :=
  evs.filterMap Event.deletedTask

/-- Use after free: some `delete t` of the trace is followed by an effect
that calls into or accesses the object `t`. -/
def usesFreed : List Event → Bool
  | [] => false
  | e :: es =>
    (match e.deletedTask with
      | some t => decide (t ∈ usedTasks es)
      | none => false) || usesFreed es

/-- The property that `Parent::DeleteChildren`, called on parent `p` in world
`w`, cleans every entry: the call returns without using a freed object, the
`Cleanup` calls are the entries of the registry, one call per entry, and the
registry is empty afterwards. -/
def cleansEveryEntry (p : ParentPtr) (w : World) : Prop :=
  ∃ w2, Parent.DeleteChildren p w = some w2 ∧
    usesFreed w2.events = false ∧
    cleanups (newEvents w w2) = w.m_children p ∧
    w2.m_children p = []

/-! ## Self exit racing with DeleteChildren -/

/-- The first `k` passes of the loop of `Parent::DeleteChildren`, or fewer
when the loop exits before. -/
def Parent.DeleteChildren.passes (this : ParentPtr) : Nat → World → LoopStep
  | 0, w => .cont w
  | k + 1, w =>
    match Parent.DeleteChildren.iter this w with
    | .brk w1 => .brk w1
    | .cont w1 => Parent.DeleteChildren.passes this k w1

/-- One interleaving of the registry steps: `k` passes of
`DeleteChildren` on parent `this`, then the `RemoveChild(T)` of the self
exit of `T`, then the remaining passes.  The result is what `RemoveChild`
returned and the final world. -/
def selfExitRace (this : ParentPtr) (T : TaskPtr) (k : Nat) (w : World) :
    Option (Bool × World) :=
  match Parent.DeleteChildren.passes this k w with
  | .brk w1 => some (Parent.RemoveChild this T w1)
  | .cont w1 =>
    let r := Parent.RemoveChild this T w1
    (Parent.DeleteChildren.loop this ((r.2.m_children this).length + 1) r.2).map
      (fun w2 => (r.1, w2))

/-! ## Sequences of registry calls -/

/-- A call on one `Parent`. -/
inductive Op
  | AddChild (t : TaskPtr)
  | RemoveChild (t : TaskPtr)
  | DeleteChildren
  deriving DecidableEq, Repr

/-- Perform one call on the parent `this`. -/
def Op.run (this : ParentPtr) : Op → World → Option World
  | .AddChild t, w => some (Parent.AddChild this t w)
  | .RemoveChild t, w => some (Parent.RemoveChild this t w).2
  | .DeleteChildren, w => Parent.DeleteChildren this w

/-- Perform a sequence of calls on the parent `this`, first to last. -/
def runOps (this : ParentPtr) : List Op → World → Option World
  | [], w => some w
  | op :: ops, w =>
    match op.run this w with
    | none => none
    | some w1 => runOps this ops w1

/-- Whether the call is a `RemoveChild(t)` that returns true in world `w`, or
a `DeleteChildren`. -/
def Op.takesAway (this : ParentPtr) (t : TaskPtr) : Op → World → Bool
  | .AddChild _, _ => false
  | .RemoveChild x, w => decide (x = t) && (Parent.RemoveChild this x w).1
  | .DeleteChildren, _ => true

/-- No call of the sequence, performed from world `w` on, is a
`RemoveChild(t)` that returns true or a `DeleteChildren`. -/
def survives (this : ParentPtr) (t : TaskPtr) : List Op → World → Bool
  | [], _ => true
  | op :: ops, w =>
    !op.takesAway this t w &&
      match op.run this w with
      | none => false
      | some w1 => survives this t ops w1

/-- The sequence, performed from world `w` on, contains an `AddChild(t)` that
is followed neither by a later `RemoveChild(t)` that returns true nor by a
later `DeleteChildren`. -/
def addedAndKept (this : ParentPtr) (t : TaskPtr) : List Op → World → Bool
  | [], _ => false
  | op :: ops, w =>
    match op.run this w with
    | none => false
    | some w1 =>
      (decide (op = .AddChild t) && survives this t ops w1) || addedAndKept this t ops w1

/-- No `AddChild(t)` of the sequence, performed from world `w` on, is called
while `t` is in the registry. -/
def addsWhenAbsent (this : ParentPtr) (t : TaskPtr) : List Op → World → Bool
  | [], _ => true
  | op :: ops, w =>
    (!decide (op = .AddChild t) || !decide (t ∈ w.m_children this)) &&
      match op.run this w with
      | none => false
      | some w1 => addsWhenAbsent this t ops w1

/-- What a call leaves in the registry it is made on, as a function of the
registry before. -/
def Op.onList : Op → List TaskPtr → List TaskPtr
  | .AddChild t, l => t :: l
  | .RemoveChild t, l => l.erase t
  | .DeleteChildren, _ => []

/-- Name of the task in the examples. -/
def exampleName : String := "svc"

/-! ## Twizy power monitor (`vehicle_renaulttwizy/src/rt_pwrmon.cpp`)

`unsigned long`, `long`, `int` and `unsigned int` are 32 bit wide, as on the
ESP32.  Unsigned arithmetic wraps modulo `2^32`.  Integer division is the
truncating division of C and has no value when the divisor is zero.
Floating point arithmetic is not modelled: the one place where a float
decides an integer guard is a parameter of `CommandPower`, and the float
arguments of `printf` are left out of the output. -/

/-- Constants that the source takes from `vehicle_renaulttwizy.h` and from
the command framework.  `WH_DIV`, `WH_RND` and `AH_DIV` are positive `long`
constants in range. -/
structure PwrConsts where
  CAN_STATUS_KEYON : Nat
  CAN_LEVEL_MINSECTLEN : Int
  CAN_LEVEL_THRESHOLD : Int
  WH_DIV : Nat
  WH_RND : Nat
  AH_DIV : Nat
  COMMAND_RESULT_MINIMAL : Int
  COMMAND_RESULT_SMS : Int
  deriving DecidableEq, Repr

/-- A `speedpwr` record (field `rec` of the source is `recd` here). -/
structure speedpwr where
  dist : Nat
  use : Nat
  recd : Nat
  spdcnt : Nat
  spdsum : Nat
  deriving DecidableEq, Repr

/-- A `levelpwr` record (field `rec` of the source is `recd` here). -/
structure levelpwr where
  dist : Nat
  hsum : Nat
  use : Nat
  recd : Nat
  deriving DecidableEq, Repr

/-- The members of `OvmsVehicleRenaultTwizy` that the power monitor reads
and writes.  `twizy_speedpwr[CAN_SPEED_CONST]`, `[CAN_SPEED_ACCEL]`,
`[CAN_SPEED_DECEL]` and `twizy_levelpwr[CAN_LEVEL_UP]`, `[CAN_LEVEL_DOWN]`
are one field each. -/
structure Twizy where
  twizy_status : Nat
  twizy_odometer : Nat
  twizy_odometer_tripstart : Nat
  twizy_level_odo : Nat
  twizy_level_alt : Int
  twizy_level_use : Nat
  twizy_level_rec : Nat
  twizy_speedpwr_CONST : speedpwr
  twizy_speedpwr_ACCEL : speedpwr
  twizy_speedpwr_DECEL : speedpwr
  twizy_levelpwr_UP : levelpwr
  twizy_levelpwr_DOWN : levelpwr
  deriving DecidableEq, Repr

/-- Reduce to the range of `unsigned long`. -/
def ulong (n : Nat) : Nat :=
  n % 2 ^ 32

/-- Unsigned subtraction `a - b`, wrapping. -/
def usub (a b : Nat) : Nat :=
  (a % 2 ^ 32 + (2 ^ 32 - b % 2 ^ 32)) % 2 ^ 32

/-- Conversion to `long` / `int`: the value modulo `2^32` in the signed
range. -/
def toLong (n : Int) : Int :=
  (n + 2 ^ 31) % 2 ^ 32 - 2 ^ 31

/-- Signed integer division of C. -/
def cdiv (a b : Int) : Option Int :=
  if b = 0 then none else some (Int.tdiv a b)

/-- Unsigned integer division of C. -/
def udiv (a b : Nat) : Option Nat :=
  if b = 0 then none else some (a / b)

/-- `OvmsVehicleRenaultTwizy::PowerCollectData`.  `car_stale_gps` is the
value of `StdMetrics.ms_v_pos_gpslock->IsStale()`, `car_altitude` the value
of `StdMetrics.ms_v_pos_altitude->AsInt()`. -/
def PowerCollectData (c : PwrConsts) (car_stale_gps : Bool) (car_altitude : Int)
    (s : Twizy) : Option Twizy :=
  if s.twizy_status &&& c.CAN_STATUS_KEYON = 0 then
    -- CAR is turned off
    some s
  else if car_stale_gps = false then
    -- no GPS for 2 minutes: reset section
    some { s with twizy_level_odo := 0, twizy_level_alt := 0 }
  else if s.twizy_level_odo = 0 then
    -- start new section
    some { s with
      twizy_level_odo := s.twizy_odometer
      twizy_level_alt := car_altitude
      twizy_level_use := 0
      twizy_level_rec := 0 }
  else
    -- calc section length
    let dist : Int := toLong (ulong (usub s.twizy_odometer s.twizy_level_odo * 10))
    if dist < c.CAN_LEVEL_MINSECTLEN then
      -- section too short to collect
      some s
    else
      -- read + reset collected power sums
      let coll_use := s.twizy_level_use
      let coll_rec := s.twizy_level_rec
      -- calc grade in percent
      let alt_diff : Int := toLong (car_altitude - s.twizy_level_alt)
      match cdiv (toLong (alt_diff * 100)) dist with
      | none => none
      | some q =>
        let grade_perc : Int := toLong q
        -- set new section reference
        let s1 : Twizy := { s with
          twizy_level_use := 0
          twizy_level_rec := 0
          twizy_level_odo := s.twizy_odometer
          twizy_level_alt := car_altitude }
        -- collect
        if grade_perc ≥ c.CAN_LEVEL_THRESHOLD then
          some { s1 with twizy_levelpwr_UP :=
            { dist := ulong (s.twizy_levelpwr_UP.dist + (dist % 2 ^ 32).toNat)
              hsum := ulong (s.twizy_levelpwr_UP.hsum + (alt_diff % 2 ^ 32).toNat)
              use := ulong (s.twizy_levelpwr_UP.use + coll_use)
              recd := ulong (s.twizy_levelpwr_UP.recd + coll_rec) } }
        else if grade_perc ≤ -c.CAN_LEVEL_THRESHOLD then
          some { s1 with twizy_levelpwr_DOWN :=
            { dist := ulong (s.twizy_levelpwr_DOWN.dist + (dist % 2 ^ 32).toNat)
              hsum := ulong (s.twizy_levelpwr_DOWN.hsum + ((-alt_diff) % 2 ^ 32).toNat)
              use := ulong (s.twizy_levelpwr_DOWN.use + coll_use)
              recd := ulong (s.twizy_levelpwr_DOWN.recd + coll_rec) } }
        else some s1

/-- Example constants: key-on bit `0x10`, sections of at least 100 m, grade
threshold 1 percent. -/
def examplePwrConsts : PwrConsts :=
  { CAN_STATUS_KEYON := 0x10
    CAN_LEVEL_MINSECTLEN := 100
    CAN_LEVEL_THRESHOLD := 1
    WH_DIV := 360000
    WH_RND := 180000
    AH_DIV := 3600000
    COMMAND_RESULT_MINIMAL := 140
    COMMAND_RESULT_SMS := 160 }

/-- The zero `speedpwr` record. -/
def speedpwr.zero : speedpwr :=
  { dist := 0, use := 0, recd := 0, spdcnt := 0, spdsum := 0 }

/-- The zero `levelpwr` record. -/
def levelpwr.zero : levelpwr :=
  { dist := 0, hsum := 0, use := 0, recd := 0 }

/-- Example car: switched on, 1 km into a level section that began at
altitude 100 m, with collected sums 7 and 3. -/
def exampleTwizy : Twizy :=
  { twizy_status := 0x10
    twizy_odometer := 5100
    twizy_odometer_tripstart := 5000
    twizy_level_odo := 5000
    twizy_level_alt := 100
    twizy_level_use := 7
    twizy_level_rec := 3
    twizy_speedpwr_CONST := speedpwr.zero
    twizy_speedpwr_ACCEL := speedpwr.zero
    twizy_speedpwr_DECEL := speedpwr.zero
    twizy_levelpwr_UP := levelpwr.zero
    twizy_levelpwr_DOWN := levelpwr.zero }

/-- Result of a vehicle command. -/
inductive vehicle_command_t
  | NotImplemented
  | Success
  | Fail
  deriving DecidableEq, Repr

/-- The `printf` and `puts` calls of `CommandPower`, in the order of the
source. -/
inductive Line
  | stats_head
  | stats_speed
  | stats_level
  | stats_charge
  | power
  | totals_speed
  | totals_level
  | trip
  | trip_wpk
  | trip_soc
  | sect_const
  | sect_accel
  | sect_decel
  | sect_up
  | sect_down
  | puts
  deriving DecidableEq, Repr

/-- One call on the writer: which one, and its integer arguments in order. -/
structure Out where
  line : Line
  args : List Int
  deriving DecidableEq, Repr

/-- The arguments `dist / 10, use / WH_DIV, rec / WH_DIV, spdcnt, spdsum` of
one pass of the first `stats` loop. -/
def CommandPower.statsSpeed (c : PwrConsts) (x : speedpwr) : Option Out := do
  let a ← udiv x.dist 10
  let b ← udiv x.use c.WH_DIV
  let d ← udiv x.recd c.WH_DIV
  pure ⟨.stats_speed, [a, b, d, x.spdcnt, x.spdsum]⟩

/-- The arguments `dist, hsum, use / WH_DIV, rec / WH_DIV` of one pass of the
second `stats` loop. -/
def CommandPower.statsLevel (c : PwrConsts) (x : levelpwr) : Option Out := do
  let b ← udiv x.use c.WH_DIV
  let d ← udiv x.recd c.WH_DIV
  pure ⟨.stats_level, [x.dist, x.hsum, b, d]⟩

/-- The expression `(v + WH_RND) / WH_DIV` on `unsigned long`. -/
def CommandPower.wh (c : PwrConsts) (v : Nat) : Option Nat :=
  udiv (ulong (v + c.WH_RND)) c.WH_DIV

/-- The expression `(d * 1000 / pwr_dist + 5) / 10`, stored in a `UINT8`. -/
def CommandPower.prc (d pwr_dist : Nat) : Option Nat := do
  let q ← udiv (ulong (d * 1000)) pwr_dist
  let r ← udiv (ulong (q + 5)) 10
  pure (r % 256)

/-- The two integer arguments that every efficiency `printf` ends with:
`(pwr / dist * factor + ((pwr>=0)?WH_RND:-WH_RND)) / WH_DIV` and
`(pwr_rec / (pwr_use/1000) + 5) / 10`, with `pwr = pwr_use - pwr_rec`
stored in a `long`. -/
def CommandPower.wpk (c : PwrConsts) (pwr_use pwr_rec : Nat) (dist factor : Int) :
    Option (Int × Nat) := do
  let pwr : Int := toLong (usub pwr_use pwr_rec)
  let q ← cdiv pwr dist
  let w ← cdiv
    (toLong (toLong (q * factor) + (if pwr ≥ 0 then (c.WH_RND : Int) else -(c.WH_RND : Int))))
    c.WH_DIV
  let k ← udiv pwr_use 1000
  let r ← udiv pwr_rec k
  let p ← udiv (ulong (r + 5)) 10
  pure (w, p)

/-- The block that the trip report repeats for every line:
`if ((pwr_use > 0) && (dist > 0)) printf(...)`, where `lead` computes the
arguments that come before the two efficiency arguments. -/
def CommandPower.sect (c : PwrConsts) (line : Line) (lead : Option (List Int))
    (pwr_use pwr_rec : Nat) (dist factor : Int) : Option (List Out) :=
  if pwr_use > 0 ∧ dist > 0 then do
    let a ← lead
    let e ← CommandPower.wpk c pwr_use pwr_rec dist factor
    pure [⟨line, a ++ [e.1, (e.2 : Int)]⟩]
  else pure []

/-- The argument `(spdsum * 10) / spdcnt + 50) / 100` of the accel and decel
lines, `0` when `spdcnt` is zero. -/
def CommandPower.kps (x : speedpwr) : Option Nat :=
  if x.spdcnt > 0 then do
    let q ← udiv (ulong (x.spdsum * 10)) x.spdcnt
    udiv (ulong (q + 50)) 100
  else pure 0

/-- `OvmsVehicleRenaultTwizy::CommandPower`.  `name` is `cmd->GetName()`.
The result is `none` when an integer division by zero is executed.
`fdist odo_dist pwr_dist d` is the value that the source stores in the
`long dist` by `dist = (float) d * correction` with
`correction = ((float) odo_dist * 100) / pwr_dist`. -/
def CommandPower (c : PwrConsts) (fdist : Nat → Nat → Nat → Int) (s : Twizy)
    (verbosity : Int) (name : String) : Option (vehicle_command_t × List Out) :=
  if name = "stats" then
    if verbosity < 200 then some (.Fail, [])
    else do
      let s0 ← CommandPower.statsSpeed c s.twizy_speedpwr_CONST
      let s1 ← CommandPower.statsSpeed c s.twizy_speedpwr_ACCEL
      let s2 ← CommandPower.statsSpeed c s.twizy_speedpwr_DECEL
      let l0 ← CommandPower.statsLevel c s.twizy_levelpwr_UP
      let l1 ← CommandPower.statsLevel c s.twizy_levelpwr_DOWN
      pure (.Success, [⟨.stats_head, []⟩, s0, s1, s2, l0, l1, ⟨.stats_charge, []⟩])
  else do
    -- overall sums
    let pwr_dist := ulong (ulong (s.twizy_speedpwr_CONST.dist + s.twizy_speedpwr_ACCEL.dist)
      + s.twizy_speedpwr_DECEL.dist)
    let pwr_use := ulong (ulong (s.twizy_speedpwr_CONST.use + s.twizy_speedpwr_ACCEL.use)
      + s.twizy_speedpwr_DECEL.use)
    let pwr_rec := ulong (ulong (s.twizy_speedpwr_CONST.recd + s.twizy_speedpwr_ACCEL.recd)
      + s.twizy_speedpwr_DECEL.recd)
    let odo_dist := usub s.twizy_odometer s.twizy_odometer_tripstart
    -- distribution
    let prc ← (if pwr_dist > 0 then do
        let a ← CommandPower.prc s.twizy_speedpwr_CONST.dist pwr_dist
        let b ← CommandPower.prc s.twizy_speedpwr_ACCEL.dist pwr_dist
        let d ← CommandPower.prc s.twizy_speedpwr_DECEL.dist pwr_dist
        pure (a, b, d)
      else pure (0, 0, 0) : Option (Nat × Nat × Nat))
    let prc_const := prc.1
    let prc_accel := prc.2.1
    let prc_decel := prc.2.2
    if pwr_use = 0 ∨ pwr_dist ≤ 10 then do
      -- not driven: only output power totals
      let a ← CommandPower.wh c pwr_use
      let b ← CommandPower.wh c pwr_rec
      pure (.Success, [⟨.power, [a, b]⟩])
    else if name = "totals" then do
      let o1 ← (if verbosity ≥ c.COMMAND_RESULT_MINIMAL then do
          let a ← CommandPower.wh c pwr_use
          let b ← CommandPower.wh c pwr_rec
          let cu ← CommandPower.wh c s.twizy_speedpwr_CONST.use
          let cr ← CommandPower.wh c s.twizy_speedpwr_CONST.recd
          let au ← CommandPower.wh c s.twizy_speedpwr_ACCEL.use
          let ar ← CommandPower.wh c s.twizy_speedpwr_ACCEL.recd
          let du ← CommandPower.wh c s.twizy_speedpwr_DECEL.use
          let dr ← CommandPower.wh c s.twizy_speedpwr_DECEL.recd
          pure [(⟨.totals_speed,
            [a, b, prc_const, cu, cr, prc_accel, au, ar, prc_decel, du, dr]⟩ : Out)]
        else pure [] : Option (List Out))
      let o2 ← (if verbosity ≥ c.COMMAND_RESULT_SMS then do
          let uu ← CommandPower.wh c s.twizy_levelpwr_UP.use
          let ur ← CommandPower.wh c s.twizy_levelpwr_UP.recd
          let du ← CommandPower.wh c s.twizy_levelpwr_DOWN.use
          let dr ← CommandPower.wh c s.twizy_levelpwr_DOWN.recd
          pure [(⟨.totals_level,
            [s.twizy_levelpwr_UP.hsum, uu, ur, s.twizy_levelpwr_DOWN.hsum, du, dr]⟩ : Out)]
        else pure [] : Option (List Out))
      pure (.Success, o1 ++ o2)
    else do
      -- power efficiency trip report (default)
      let o1 ← (if verbosity ≥ c.COMMAND_RESULT_MINIMAL then do
          let avg ← (if s.twizy_speedpwr_CONST.spdcnt > 0 then do
              let q ← udiv s.twizy_speedpwr_CONST.spdsum s.twizy_speedpwr_CONST.spdcnt
              udiv q 100
            else pure 0 : Option Nat)
          let t ← CommandPower.sect c .trip_wpk (some []) pwr_use pwr_rec
            (fdist odo_dist pwr_dist pwr_dist) 10000
          let sc ← CommandPower.sect c .sect_const (some [(prc_const : Int)])
            s.twizy_speedpwr_CONST.use s.twizy_speedpwr_CONST.recd
            (fdist odo_dist pwr_dist s.twizy_speedpwr_CONST.dist) 10000
          let sa ← CommandPower.sect c .sect_accel
            ((CommandPower.kps s.twizy_speedpwr_ACCEL).map
              (fun k => [(prc_accel : Int), (k : Int)]))
            s.twizy_speedpwr_ACCEL.use s.twizy_speedpwr_ACCEL.recd
            (fdist odo_dist pwr_dist s.twizy_speedpwr_ACCEL.dist) 10000
          let sd ← CommandPower.sect c .sect_decel
            ((CommandPower.kps s.twizy_speedpwr_DECEL).map
              (fun k => [(prc_decel : Int), (k : Int)]))
            s.twizy_speedpwr_DECEL.use s.twizy_speedpwr_DECEL.recd
            (fdist odo_dist pwr_dist s.twizy_speedpwr_DECEL.dist) 10000
          pure ([(⟨.trip, [(avg : Int)]⟩ : Out)] ++ t ++ [⟨.trip_soc, []⟩] ++ sc ++ sa ++ sd)
        else pure [] : Option (List Out))
      let o2 ← (if verbosity ≥ c.COMMAND_RESULT_SMS then do
          -- level distances are in 1 m and based on odometer
          let su ← CommandPower.sect c .sect_up (some [(s.twizy_levelpwr_UP.hsum : Int)])
            s.twizy_levelpwr_UP.use s.twizy_levelpwr_UP.recd
            (toLong s.twizy_levelpwr_UP.dist) 1000
          let sd ← CommandPower.sect c .sect_down (some [(s.twizy_levelpwr_DOWN.hsum : Int)])
            s.twizy_levelpwr_DOWN.use s.twizy_levelpwr_DOWN.recd
            (toLong s.twizy_levelpwr_DOWN.dist) 1000
          pure (su ++ sd)
        else pure [] : Option (List Out))
      pure (.Success, o1 ++ o2 ++ [⟨.puts, []⟩])

/-- Name of the default command of `CommandPower`. -/
def reportName : String := "report"

/-- Example car for the trip report: 5000 units used at constant speed over
a counted distance of 100, and 500 units used uphill over 100 m. -/
def reportTwizy : Twizy :=
  { exampleTwizy with
    twizy_speedpwr_CONST := { dist := 100, use := 5000, recd := 0, spdcnt := 0, spdsum := 0 }
    twizy_levelpwr_UP := { dist := 100, hsum := 5, use := 500, recd := 0 } }

/-- Example car just after the start of a trip: 500 units used in total. -/
def startTwizy : Twizy :=
  { exampleTwizy with
    twizy_speedpwr_CONST := { dist := 100, use := 500, recd := 0, spdcnt := 0, spdsum := 0 } }

/-! ## Basic facts -/

@[simp] theorem log_m_children (w : World) (e : Event) : (w.log e).m_children = w.m_children :=
  rfl

@[simp] theorem log_tasks (w : World) (e : Event) : (w.log e).tasks = w.tasks := rfl

@[simp] theorem log_events (w : World) (e : Event) : (w.log e).events = w.events ++ [e] := by
  simp [World.log, World.events]

@[simp] theorem setChildren_same (w : World) (p : ParentPtr) (l : List TaskPtr) :
    (w.setChildren p l).m_children p = l := by
  simp [World.setChildren]

theorem setChildren_other (w : World) (p q : ParentPtr) (l : List TaskPtr) (h : q ≠ p) :
    (w.setChildren p l).m_children q = w.m_children q := by
  simp [World.setChildren, Function.update_noteq h]

@[simp] theorem setChildren_tasks (w : World) (p : ParentPtr) (l : List TaskPtr) :
    (w.setChildren p l).tasks = w.tasks := rfl

@[simp] theorem setChildren_events (w : World) (p : ParentPtr) (l : List TaskPtr) :
    (w.setChildren p l).events = w.events := rfl

@[simp] theorem setChildren_self (w : World) (p : ParentPtr) :
    w.setChildren p (w.m_children p) = w := by
  simp [World.setChildren]

/-- The scan finds `child` exactly when it occurs after the current element,
and then removes its first occurrence there. -/
theorem scan_eq (child : TaskPtr) (pre : List TaskPtr) (cur : TaskPtr) (rest : List TaskPtr) :
    Parent.RemoveChild.scan child pre cur rest =
      if child ∈ rest then some (pre ++ cur :: rest.erase child) else none := by
  induction rest generalizing pre cur with
  | nil => simp [Parent.RemoveChild.scan]
  | cons x rest ih =>
    unfold Parent.RemoveChild.scan
    by_cases hx : x = child
    · subst hx
      simp
    · have hx2 : ¬ child = x := fun h => hx h.symm
      simp only [hx, if_false, ih, List.mem_cons, hx2, false_or]
      by_cases hm : child ∈ rest
      · simp [hm, List.erase_cons_tail, hx]
      · simp [hm]

/-- What `RemoveChild` returns and what it leaves in the world, by cases on
the registry. -/
theorem RemoveChild_eq (this : ParentPtr) (child : TaskPtr) (w : World) :
    Parent.RemoveChild this child w =
      if child ∈ w.m_children this then
        (true, (((((w.log (.xSemaphoreTake this)).log (.children_begin this)).setChildren this
          ((w.m_children this).erase child)).log
            (if (w.m_children this).head? = some child then .pop_front this
              else .erase_after this)).log (.xSemaphoreGive this)))
      else
        (false, ((w.log (.xSemaphoreTake this)).log (.children_begin this)).log
          (.xSemaphoreGive this)) := by
  unfold Parent.RemoveChild
  simp only [log_m_children]
  cases hl : w.m_children this with
  | nil => simp
  | cons first rest =>
    by_cases hf : first = child
    · subst hf
      simp
    · have hf2 : ¬ child = first := fun h => hf h.symm
      simp only [hf, if_false, scan_eq, List.nil_append, List.mem_cons, hf2, false_or,
        List.head?_cons, Option.some.injEq]
      by_cases hm : child ∈ rest
      · simp [hm, List.erase_cons_tail, hf]
      · simp [hm]

theorem RemoveChild_fst (this : ParentPtr) (child : TaskPtr) (w : World) :
    (Parent.RemoveChild this child w).1 = decide (child ∈ w.m_children this) := by
  rw [RemoveChild_eq]
  by_cases hm : child ∈ w.m_children this <;> simp [hm]

theorem RemoveChild_children (this : ParentPtr) (child : TaskPtr) (w : World) :
    (Parent.RemoveChild this child w).2.m_children =
      Function.update w.m_children this ((w.m_children this).erase child) := by
  rw [RemoveChild_eq]
  by_cases hm : child ∈ w.m_children this
  · simp [hm, World.setChildren]
  · simp [hm, List.erase_of_not_mem hm]

theorem RemoveChild_tasks (this : ParentPtr) (child : TaskPtr) (w : World) :
    (Parent.RemoveChild this child w).2.tasks = w.tasks := by
  rw [RemoveChild_eq]
  by_cases hm : child ∈ w.m_children this <;> simp [hm]

/-- First occurrence: a list that contains `a` splits around the entry that
`erase` removes. -/
theorem erase_split (a : TaskPtr) (l : List TaskPtr) (h : a ∈ l) :
    ∃ pre post, l = pre ++ a :: post ∧ a ∉ pre ∧ l.erase a = pre ++ post := by
  induction l with
  | nil => simp at h
  | cons x l ih =>
    by_cases hx : x = a
    · subst hx
      exact ⟨[], l, by simp, by simp, by simp⟩
    · have hm : a ∈ l := by
        rcases List.mem_cons.mp h with h1 | h1
        · exact absurd h1.symm hx
        · exact h1
      obtain ⟨pre, post, h1, h2, h3⟩ := ih hm
      refine ⟨x :: pre, post, by simp [h1], ?_, ?_⟩
      · simp only [List.mem_cons, not_or]
        exact ⟨fun h => hx h.symm, h2⟩
      · rw [List.erase_cons_tail (by simpa using hx), h3]
        simp

/-- C3. `Parent::RemoveChild(t)` returns true exactly when `t` occurs in the
registry.  When it returns false no registry is changed.  When it returns
true the registry is the old one with the first occurrence of `t` removed:
the old list is `pre ++ t :: post` with `t` not in `pre`, the new list is
`pre ++ post`, one entry shorter, and the other registries are unchanged. -/
theorem C3_RemoveChild_first_occurrence (this : ParentPtr) (t : TaskPtr) (w : World) :
    ((Parent.RemoveChild this t w).1 = true ↔ t ∈ w.m_children this) ∧
    ((Parent.RemoveChild this t w).1 = false →
      (Parent.RemoveChild this t w).2.m_children = w.m_children) ∧
    ((Parent.RemoveChild this t w).1 = true →
      (∃ pre post, w.m_children this = pre ++ t :: post ∧ t ∉ pre ∧
        (Parent.RemoveChild this t w).2.m_children this = pre ++ post) ∧
      ((Parent.RemoveChild this t w).2.m_children this).length + 1 =
        (w.m_children this).length ∧
      ∀ q, q ≠ this → (Parent.RemoveChild this t w).2.m_children q = w.m_children q) := by
  rw [RemoveChild_children, RemoveChild_fst]
  refine ⟨by simp, ?_, ?_⟩
  · intro h
    have hm : t ∉ w.m_children this := by simpa using h
    simp [List.erase_of_not_mem hm]
  · intro h
    have hm : t ∈ w.m_children this := by simpa using h
    obtain ⟨pre, post, h1, h2, h3⟩ := erase_split t _ hm
    refine ⟨⟨pre, post, h1, h2, by simp [h3]⟩, ?_, ?_⟩
    · simp only [Function.update_same, h3]
      rw [h1]
      simp
      omega
    · intro q hq
      simp [Function.update_noteq hq]

/-! ## Traces of the teardown calls -/

theorem newEvents_of_append (w1 w2 : World) (es : List Entry)
    (h : w2.trace = w1.trace ++ es) : newEvents w1 w2 = es.map Entry.ev := by
  simp [newEvents, World.events, h]

theorem newEntries_of_append (w1 w2 : World) (es : List Entry)
    (h : w2.trace = w1.trace ++ es) : newEntries w1 w2 = es := by
  simp [newEntries, h]

theorem DeleteTask_trace (c : TaskPtr) (w : World) :
    (TaskBase.DeleteTask c w).trace = w.trace ++
      [⟨.Cleanup c, w.m_children⟩, ⟨.read_m_taskid c, w.m_children⟩,
       ⟨.vTaskDelete (w.tasks c).m_taskid, w.m_children⟩, ⟨.delete c, w.m_children⟩] := by
  simp [TaskBase.DeleteTask, TaskBase.Cleanup, World.log]

@[simp] theorem DeleteTask_m_children (c : TaskPtr) (w : World) :
    (TaskBase.DeleteTask c w).m_children = w.m_children := rfl

@[simp] theorem DeleteTask_tasks (c : TaskPtr) (w : World) :
    (TaskBase.DeleteTask c w).tasks = w.tasks := rfl

theorem iter_nil (this : ParentPtr) (w : World) (h : w.m_children this = []) :
    Parent.DeleteChildren.iter this w =
      .brk (((w.log (.xSemaphoreTake this)).log (.children_empty this)).log
        (.xSemaphoreGive this)) := by
  simp [Parent.DeleteChildren.iter, h]

theorem iter_cons (this : ParentPtr) (w : World) (c : TaskPtr) (rest : List TaskPtr)
    (h : w.m_children this = c :: rest) :
    Parent.DeleteChildren.iter this w =
      .cont (TaskBase.DeleteTask c ((((((w.log (.xSemaphoreTake this)).log
        (.children_empty this)).log (.children_begin this)).setChildren this rest).log
          (.pop_front this)).log (.xSemaphoreGive this))) := by
  simp [Parent.DeleteChildren.iter, h]

/-- The world after one pass that pops `c`. -/
theorem iter_cons_facts (this : ParentPtr) (w : World) (c : TaskPtr) (rest : List TaskPtr)
    (h : w.m_children this = c :: rest) :
    ∃ w1 es, Parent.DeleteChildren.iter this w = .cont w1 ∧
      w1.m_children = Function.update w.m_children this rest ∧
      w1.tasks = w.tasks ∧ w1.trace = w.trace ++ es ∧
      es.map Entry.ev = passEvents this c (w.tasks c).m_taskid ∧
      cleanupSnapshots this es = [rest] := by
  refine ⟨_,
    [⟨.xSemaphoreTake this, w.m_children⟩, ⟨.children_empty this, w.m_children⟩,
     ⟨.children_begin this, w.m_children⟩,
     ⟨.pop_front this, Function.update w.m_children this rest⟩,
     ⟨.xSemaphoreGive this, Function.update w.m_children this rest⟩,
     ⟨.Cleanup c, Function.update w.m_children this rest⟩,
     ⟨.read_m_taskid c, Function.update w.m_children this rest⟩,
     ⟨.vTaskDelete (w.tasks c).m_taskid, Function.update w.m_children this rest⟩,
     ⟨.delete c, Function.update w.m_children this rest⟩],
    iter_cons this w c rest h, ?_, ?_, ?_, ?_, ?_⟩
  · simp [World.setChildren]
  · simp
  · rw [DeleteTask_trace]
    simp [World.log, World.setChildren]
  · simp [passEvents]
  · simp [cleanupSnapshots, Event.cleanupOf]

/-- Past one pass per entry plus one, the fuel does not matter. -/
theorem loop_fuel (this : ParentPtr) (l : List TaskPtr) :
    ∀ (w : World) (f1 f2 : Nat), w.m_children this = l → l.length < f1 → l.length < f2 →
      Parent.DeleteChildren.loop this f1 w = Parent.DeleteChildren.loop this f2 w := by
  induction l with
  | nil =>
    intro w f1 f2 hl h1 h2
    obtain ⟨n1, rfl⟩ : ∃ n, f1 = n + 1 := ⟨f1 - 1, by omega⟩
    obtain ⟨n2, rfl⟩ : ∃ n, f2 = n + 1 := ⟨f2 - 1, by omega⟩
    simp only [Parent.DeleteChildren.loop, iter_nil this w hl]
  | cons c rest ih =>
    intro w f1 f2 hl h1 h2
    simp only [List.length_cons] at h1 h2
    obtain ⟨n1, rfl⟩ : ∃ n, f1 = n + 1 := ⟨f1 - 1, by omega⟩
    obtain ⟨n2, rfl⟩ : ∃ n, f2 = n + 1 := ⟨f2 - 1, by omega⟩
    obtain ⟨w1, es1, hi, hc1, -, -, -, -⟩ := iter_cons_facts this w c rest hl
    simp only [Parent.DeleteChildren.loop, hi]
    exact ih w1 n1 n2 (by simp [hc1]) (by omega) (by omega)

/-- The loop of `DeleteChildren` with enough fuel: it returns, the registry
is empty, the tasks are untouched, and the trace grows by one pass per entry
and the pass that finds the registry empty. -/
theorem loop_spec (this : ParentPtr) (l : List TaskPtr) :
    ∀ (w : World) (fuel : Nat), w.m_children this = l → l.length < fuel →
    ∃ w2 es, Parent.DeleteChildren.loop this fuel w = some w2 ∧
      w2.m_children = Function.update w.m_children this [] ∧
      w2.tasks = w.tasks ∧ w2.trace = w.trace ++ es ∧
      es.map Entry.ev =
        (l.map (fun c => passEvents this c (w.tasks c).m_taskid)).flatten ++
          [.xSemaphoreTake this, .children_empty this, .xSemaphoreGive this] ∧
      cleanupSnapshots this es = l.tails.tail := by
  induction l with
  | nil =>
    intro w fuel hl hf
    obtain ⟨n, rfl⟩ : ∃ n, fuel = n + 1 := ⟨fuel - 1, by omega⟩
    refine ⟨((w.log (.xSemaphoreTake this)).log (.children_empty this)).log
        (.xSemaphoreGive this),
      [⟨.xSemaphoreTake this, w.m_children⟩, ⟨.children_empty this, w.m_children⟩,
       ⟨.xSemaphoreGive this, w.m_children⟩], ?_, ?_, ?_, ?_, ?_, ?_⟩
    · simp only [Parent.DeleteChildren.loop, iter_nil this w hl]
    · simp only [log_m_children]
      rw [← hl]
      simp
    · simp
    · simp [World.log]
    · simp
    · simp [cleanupSnapshots, Event.cleanupOf]
  | cons c rest ih =>
    intro w fuel hl hf
    simp only [List.length_cons] at hf
    obtain ⟨n, rfl⟩ : ∃ n, fuel = n + 1 := ⟨fuel - 1, by omega⟩
    obtain ⟨w1, es1, h1, hc1, ht1, htr1, hev1, hs1⟩ := iter_cons_facts this w c rest hl
    have hl1 : w1.m_children this = rest := by simp [hc1]
    obtain ⟨w2, es2, h2, hc2, ht2, htr2, hev2, hs2⟩ := ih w1 n hl1 (by omega)
    refine ⟨w2, es1 ++ es2, ?_, ?_, ?_, ?_, ?_, ?_⟩
    · simp only [Parent.DeleteChildren.loop, h1, h2]
    · rw [hc2, hc1]
      simp
    · rw [ht2, ht1]
    · rw [htr2, htr1, List.append_assoc]
    · rw [List.map_append, hev1, hev2, ht1]
      simp
    · have : cleanupSnapshots this (es1 ++ es2) =
          cleanupSnapshots this es1 ++ cleanupSnapshots this es2 := by
        simp [cleanupSnapshots]
      rw [this, hs1, hs2]
      cases rest <;> simp

/-- `DeleteChildren` returns, and more fuel than one pass per entry plus one
does not change what it returns. -/
theorem DeleteChildren_spec (this : ParentPtr) (w : World) :
    ∃ w2 es, Parent.DeleteChildren this w = some w2 ∧
      (∀ fuel, (w.m_children this).length < fuel →
        Parent.DeleteChildren.loop this fuel w = some w2) ∧
      w2.m_children = Function.update w.m_children this [] ∧
      w2.tasks = w.tasks ∧ w2.trace = w.trace ++ es ∧
      es.map Entry.ev =
        ((w.m_children this).map (fun c => passEvents this c (w.tasks c).m_taskid)).flatten ++
          [.xSemaphoreTake this, .children_empty this, .xSemaphoreGive this] ∧
      cleanupSnapshots this es = (w.m_children this).tails.tail := by
  obtain ⟨w2, es, h, hc, ht, htr, hev, hs⟩ :=
    loop_spec this (w.m_children this) w ((w.m_children this).length + 1) rfl (by omega)
  refine ⟨w2, es, h, ?_, hc, ht, htr, hev, hs⟩
  intro fuel hf
  rw [loop_fuel this (w.m_children this) w fuel ((w.m_children this).length + 1) rfl hf
    (by omega)]
  exact h

theorem cleanups_append (a b : List Event) : cleanups (a ++ b) = cleanups a ++ cleanups b := by
  simp [cleanups]

theorem cleanups_passEvents (p : ParentPtr) (c : TaskPtr) (h : TaskHandle_t) :
    cleanups (passEvents p c h) = [c] := by
  simp [cleanups, passEvents, Event.cleanupOf]

theorem cleanups_passes (this : ParentPtr) (h : TaskPtr → TaskHandle_t) (l : List TaskPtr)
    (tl : List Event) :
    cleanups ((l.map (fun c => passEvents this c (h c))).flatten ++ tl) = l ++ cleanups tl := by
  induction l with
  | nil => simp
  | cons c rest ih =>
    rw [List.map_cons, List.flatten_cons, List.append_assoc, cleanups_append,
      cleanups_passEvents, ih]
    simp

theorem count_take_passes (this : ParentPtr) (h : TaskPtr → TaskHandle_t) (l : List TaskPtr) :
    ((l.map (fun c => passEvents this c (h c))).flatten ++
      [Event.xSemaphoreTake this, Event.children_empty this, Event.xSemaphoreGive this]).count
        (Event.xSemaphoreTake this) = l.length + 1 := by
  induction l with
  | nil => simp [List.count_cons]
  | cons c rest ih =>
    rw [List.map_cons, List.flatten_cons, List.append_assoc, List.count_append, ih]
    simp [passEvents, List.count_cons]
    omega

theorem count_give_passes (this : ParentPtr) (h : TaskPtr → TaskHandle_t) (l : List TaskPtr) :
    ((l.map (fun c => passEvents this c (h c))).flatten ++
      [Event.xSemaphoreTake this, Event.children_empty this, Event.xSemaphoreGive this]).count
        (Event.xSemaphoreGive this) = l.length + 1 := by
  induction l with
  | nil => simp [List.count_cons]
  | cons c rest ih =>
    rw [List.map_cons, List.flatten_cons, List.append_assoc, List.count_append, ih]
    simp [passEvents, List.count_cons]
    omega

/-- The effects of `RemoveChild`. -/
theorem RemoveChild_trace (this : ParentPtr) (child : TaskPtr) (w : World) :
    ∃ es, (Parent.RemoveChild this child w).2.trace = w.trace ++ es ∧
      es.map Entry.ev =
        if child ∈ w.m_children this then
          [Event.xSemaphoreTake this, Event.children_begin this,
           if (w.m_children this).head? = some child then Event.pop_front this
           else Event.erase_after this,
           Event.xSemaphoreGive this]
        else
          [Event.xSemaphoreTake this, Event.children_begin this, Event.xSemaphoreGive this] := by
  rw [RemoveChild_eq]
  by_cases hm : child ∈ w.m_children this
  · simp only [hm, if_true]
    exact ⟨[_, _, _, _], by simp only [World.log, World.setChildren, List.append_assoc]; rfl,
      by simp⟩
  · simp only [hm, if_false]
    exact ⟨[_, _, _], by simp only [World.log, List.append_assoc]; rfl, by simp⟩

theorem RemoveChild_cleanups (this : ParentPtr) (child : TaskPtr) (w : World) :
    ∃ es, (Parent.RemoveChild this child w).2.trace = w.trace ++ es ∧
      cleanups (es.map Entry.ev) = [] := by
  obtain ⟨es, h1, h2⟩ := RemoveChild_trace this child w
  refine ⟨es, h1, ?_⟩
  rw [h2]
  by_cases hm : child ∈ w.m_children this
  · by_cases hh : (w.m_children this).head? = some child <;>
      simp [hm, hh, cleanups, Event.cleanupOf]
  · simp [hm, cleanups, Event.cleanupOf]

/-- The first `k` passes of `DeleteChildren` pop the first `k` entries and
clean them up; past the length of the registry the loop has exited. -/
theorem passes_spec (this : ParentPtr) (l : List TaskPtr) :
    ∀ (k : Nat) (w : World), w.m_children this = l →
    ∃ w1 es, w1.m_children = Function.update w.m_children this (l.drop k) ∧
      w1.trace = w.trace ++ es ∧ cleanups (es.map Entry.ev) = l.take k ∧
      Parent.DeleteChildren.passes this k w =
        if k ≤ l.length then LoopStep.cont w1 else LoopStep.brk w1 := by
  induction l with
  | nil =>
    intro k w hl
    cases k with
    | zero =>
      refine ⟨w, [], ?_, by simp, by simp [cleanups], by simp [Parent.DeleteChildren.passes]⟩
      rw [← hl]
      simp
    | succ k =>
      refine ⟨((w.log (.xSemaphoreTake this)).log (.children_empty this)).log
          (.xSemaphoreGive this),
        [⟨.xSemaphoreTake this, w.m_children⟩, ⟨.children_empty this, w.m_children⟩,
         ⟨.xSemaphoreGive this, w.m_children⟩], ?_, ?_, ?_, ?_⟩
      · simp only [log_m_children, List.drop_nil]
        rw [← hl]
        simp
      · simp [World.log]
      · simp [cleanups, Event.cleanupOf]
      · simp [Parent.DeleteChildren.passes, iter_nil this w hl]
  | cons c rest ih =>
    intro k w hl
    cases k with
    | zero =>
      refine ⟨w, [], ?_, by simp, by simp [cleanups], by simp [Parent.DeleteChildren.passes]⟩
      rw [← hl]
      simp
    | succ k =>
      obtain ⟨w1, es1, hi, hc1, -, htr1, hev1, -⟩ := iter_cons_facts this w c rest hl
      obtain ⟨w2, es2, hc2, htr2, hcl2, hp2⟩ := ih k w1 (by simp [hc1])
      refine ⟨w2, es1 ++ es2, ?_, ?_, ?_, ?_⟩
      · rw [hc2, hc1]
        simp
      · rw [htr2, htr1, List.append_assoc]
      · rw [List.map_append, cleanups_append, hev1, cleanups_passEvents, hcl2]
        simp
      · simp only [Parent.DeleteChildren.passes, hi, hp2, List.length_cons,
          Nat.add_le_add_iff_right]

/-! ## Self exit -/

theorem DeleteFromParent_none (this : TaskPtr) (w : World)
    (h : (w.tasks this).m_parent = none) :
    TaskBase.DeleteFromParent this w =
      (((w.log (.read_m_parent this)).log (.read_m_taskid this)).log (.delete this)).log
        (.vTaskDelete (w.tasks this).m_taskid) := by
  simp [TaskBase.DeleteFromParent, h]

theorem DeleteFromParent_some (this : TaskPtr) (w : World) (p : ParentPtr)
    (h : (w.tasks this).m_parent = some p) :
    TaskBase.DeleteFromParent this w =
      if (Parent.RemoveChild p this (TaskBase.DeleteFromParent.callWorld this w)).1 = true then
        (((Parent.RemoveChild p this (TaskBase.DeleteFromParent.callWorld this w)).2.log
          (.read_m_taskid this)).log (.delete this)).log (.vTaskDelete (w.tasks this).m_taskid)
      else (Parent.RemoveChild p this (TaskBase.DeleteFromParent.callWorld this w)).2 := by
  simp [TaskBase.DeleteFromParent, TaskBase.DeleteFromParent.callWorld, h, RemoveChild_tasks]

/-- The effects and the registries of `DeleteFromParent`, by cases on the
parent pointer and on the registry. -/
theorem DeleteFromParent_facts (this : TaskPtr) (w : World) :
    ((w.tasks this).m_parent = none ∧
      (TaskBase.DeleteFromParent this w).m_children = w.m_children ∧
      newEvents w (TaskBase.DeleteFromParent this w) =
        [.read_m_parent this, .read_m_taskid this, .delete this,
         .vTaskDelete (w.tasks this).m_taskid]) ∨
    (∃ p, (w.tasks this).m_parent = some p ∧ this ∈ w.m_children p ∧
      (Parent.RemoveChild p this (TaskBase.DeleteFromParent.callWorld this w)).1 = true ∧
      (TaskBase.DeleteFromParent this w).m_children =
        Function.update w.m_children p ((w.m_children p).erase this) ∧
      newEvents w (TaskBase.DeleteFromParent this w) =
        [.read_m_parent this, .read_m_parent this, .xSemaphoreTake p, .children_begin p,
         if (w.m_children p).head? = some this then .pop_front p else .erase_after p,
         .xSemaphoreGive p, .read_m_taskid this, .delete this,
         .vTaskDelete (w.tasks this).m_taskid]) ∨
    (∃ p, (w.tasks this).m_parent = some p ∧ this ∉ w.m_children p ∧
      (Parent.RemoveChild p this (TaskBase.DeleteFromParent.callWorld this w)).1 = false ∧
      (TaskBase.DeleteFromParent this w).m_children = w.m_children ∧
      newEvents w (TaskBase.DeleteFromParent this w) =
        [.read_m_parent this, .read_m_parent this, .xSemaphoreTake p, .children_begin p,
         .xSemaphoreGive p]) := by
  cases hp : (w.tasks this).m_parent with
  | none =>
    left
    rw [DeleteFromParent_none this w hp]
    refine ⟨rfl, rfl, ?_⟩
    rw [newEvents_of_append w _ [⟨.read_m_parent this, w.m_children⟩,
      ⟨.read_m_taskid this, w.m_children⟩, ⟨.delete this, w.m_children⟩,
      ⟨.vTaskDelete (w.tasks this).m_taskid, w.m_children⟩] (by simp [World.log])]
    simp
  | some p =>
    right
    have hcw : (TaskBase.DeleteFromParent.callWorld this w).m_children = w.m_children := rfl
    have htw : (TaskBase.DeleteFromParent.callWorld this w).trace =
        w.trace ++ [⟨.read_m_parent this, w.m_children⟩, ⟨.read_m_parent this, w.m_children⟩] := by
      simp [TaskBase.DeleteFromParent.callWorld, World.log]
    obtain ⟨es, htr, hev⟩ :=
      RemoveChild_trace p this (TaskBase.DeleteFromParent.callWorld this w)
    have hfst := RemoveChild_fst p this (TaskBase.DeleteFromParent.callWorld this w)
    have hch := RemoveChild_children p this (TaskBase.DeleteFromParent.callWorld this w)
    rw [hcw] at hev hfst hch
    rw [DeleteFromParent_some this w p hp]
    by_cases hm : this ∈ w.m_children p
    · left
      have h1 : (Parent.RemoveChild p this (TaskBase.DeleteFromParent.callWorld this w)).1 =
          true := by simp [hfst, hm]
      refine ⟨p, rfl, hm, h1, ?_, ?_⟩
      · simp [h1, hch]
      · simp only [h1, if_true]
        rw [newEvents_of_append w _
          ([⟨.read_m_parent this, w.m_children⟩, ⟨.read_m_parent this, w.m_children⟩] ++ es ++
            [⟨.read_m_taskid this, _⟩, ⟨.delete this, _⟩,
             ⟨.vTaskDelete (w.tasks this).m_taskid, _⟩])
          (by simp only [World.log, htr, htw, List.append_assoc]; rfl)]
        simp [hev, hm]
    · right
      have h1 : (Parent.RemoveChild p this (TaskBase.DeleteFromParent.callWorld this w)).1 =
          false := by simp [hfst, hm]
      refine ⟨p, rfl, hm, h1, ?_, ?_⟩
      · simp [h1, hch, List.erase_of_not_mem hm]
      · simp only [h1, Bool.false_eq_true, if_false]
        rw [newEvents_of_append w _
          ([⟨.read_m_parent this, w.m_children⟩, ⟨.read_m_parent this, w.m_children⟩] ++ es)
          (by simp only [htr, htw, List.append_assoc])]
        simp [hev, hm]

/-! ## Sequences of registry calls -/

/-- Every call returns, and the registry it is made on changes as
`Op.onList` says. -/
theorem Op_run_children (this : ParentPtr) (op : Op) (w : World) :
    ∃ w1, op.run this w = some w1 ∧ w1.m_children this = op.onList (w.m_children this) := by
  cases op with
  | AddChild t => exact ⟨_, rfl, by simp [Parent.AddChild, Op.onList]⟩
  | RemoveChild t => exact ⟨_, rfl, by simp [RemoveChild_children, Op.onList]⟩
  | DeleteChildren =>
    obtain ⟨w2, -, h, -, hc, -⟩ := DeleteChildren_spec this w
    exact ⟨w2, h, by simp [hc, Op.onList]⟩

theorem runOps_total (this : ParentPtr) (ops : List Op) :
    ∀ w : World, ∃ w2, runOps this ops w = some w2 := by
  induction ops with
  | nil => exact fun w => ⟨w, rfl⟩
  | cons op ops ih =>
    intro w
    obtain ⟨w1, h1, -⟩ := Op_run_children this op w
    obtain ⟨w2, h2⟩ := ih w1
    exact ⟨w2, by simp [runOps, h1, h2]⟩

/-- An entry that no later call takes away is still there at the end. -/
theorem survives_mem (this : ParentPtr) (t : TaskPtr) (ops : List Op) :
    ∀ w w2 : World, runOps this ops w = some w2 → survives this t ops w = true →
      t ∈ w.m_children this → t ∈ w2.m_children this := by
  induction ops with
  | nil =>
    intro w w2 hr _ hm
    simp only [runOps, Option.some.injEq] at hr
    rw [← hr]
    exact hm
  | cons op ops ih =>
    intro w w2 hr hs hm
    obtain ⟨w1, h1, hc1⟩ := Op_run_children this op w
    simp only [runOps, h1] at hr
    simp only [survives, h1, Bool.and_eq_true, Bool.not_eq_true'] at hs
    refine ih w1 w2 hr hs.2 ?_
    rw [hc1]
    cases op with
    | AddChild x => simp [Op.onList, hm]
    | RemoveChild x =>
      have hx : ¬ (x = t) := by
        intro hxt
        have := hs.1
        simp [Op.takesAway, hxt, RemoveChild_fst, hm] at this
      simp only [Op.onList]
      exact (List.mem_erase_of_ne (fun h => hx h.symm)).mpr hm
    | DeleteChildren =>
      have := hs.1
      simp [Op.takesAway] at this

/-- An `AddChild(t)` that nothing later takes away leaves `t` in the
registry. -/
theorem addedAndKept_mem (this : ParentPtr) (t : TaskPtr) (ops : List Op) :
    ∀ w w2 : World, runOps this ops w = some w2 → addedAndKept this t ops w = true →
      t ∈ w2.m_children this := by
  induction ops with
  | nil =>
    intro w w2 _ h
    simp [addedAndKept] at h
  | cons op ops ih =>
    intro w w2 hr h
    obtain ⟨w1, h1, hc1⟩ := Op_run_children this op w
    simp only [runOps, h1] at hr
    simp only [addedAndKept, h1, Bool.or_eq_true, Bool.and_eq_true, decide_eq_true_eq] at h
    rcases h with ⟨hop, hs⟩ | h
    · refine survives_mem this t ops w1 w2 hr hs ?_
      rw [hc1, hop]
      simp [Op.onList]
    · exact ih w1 w2 hr h

/-- When `t` is never added while present, an entry `t` at the end was
there from the start and never taken away, or was added and kept. -/
theorem mem_addedAndKept (this : ParentPtr) (t : TaskPtr) (ops : List Op) :
    ∀ w w2 : World, runOps this ops w = some w2 → addsWhenAbsent this t ops w = true →
      (w.m_children this).count t ≤ 1 → t ∈ w2.m_children this →
      addedAndKept this t ops w = true ∨
        (t ∈ w.m_children this ∧ survives this t ops w = true) := by
  induction ops with
  | nil =>
    intro w w2 hr _ _ hm
    simp only [runOps, Option.some.injEq] at hr
    rw [← hr] at hm
    exact Or.inr ⟨hm, rfl⟩
  | cons op ops ih =>
    intro w w2 hr ha hcnt hm
    obtain ⟨w1, h1, hc1⟩ := Op_run_children this op w
    simp only [runOps, h1] at hr
    simp only [addsWhenAbsent, h1, Bool.and_eq_true, Bool.or_eq_true, Bool.not_eq_true',
      decide_eq_false_iff_not] at ha
    have hcnt1 : (w1.m_children this).count t ≤ 1 := by
      rw [hc1]
      cases op with
      | AddChild x =>
        by_cases hx : x = t
        · subst hx
          rcases ha.1 with h | h
          · exact absurd rfl h
          · simp [Op.onList, List.count_eq_zero_of_not_mem h]
        · simp only [Op.onList]
          rw [List.count_cons_of_ne (fun h => hx h.symm)]
          exact hcnt
      | RemoveChild x =>
        simp only [Op.onList]
        exact le_trans (List.Sublist.count_le (List.erase_sublist x _) t) hcnt
      | DeleteChildren => simp [Op.onList]
    rcases ih w1 w2 hr ha.2 hcnt1 hm with h | ⟨hm1, hs1⟩
    · left
      simp [addedAndKept, h1, h]
    · rw [hc1] at hm1
      cases op with
      | AddChild x =>
        by_cases hx : x = t
        · subst hx
          left
          simp [addedAndKept, h1, hs1]
        · right
          simp only [Op.onList, List.mem_cons] at hm1
          rcases hm1 with h | h
          · exact absurd h.symm hx
          · exact ⟨h, by simp [survives, h1, hs1, Op.takesAway]⟩
      | RemoveChild x =>
        simp only [Op.onList] at hm1
        by_cases hx : x = t
        · subst hx
          exfalso
          have hpos : 0 < ((w.m_children this).erase x).count x := List.count_pos_iff.mpr hm1
          rw [List.count_erase_self] at hpos
          omega
        · right
          exact ⟨List.mem_of_mem_erase hm1, by simp [survives, h1, hs1, Op.takesAway, hx]⟩
      | DeleteChildren => simp [Op.onList] at hm1

/-! ## Object lifetime -/

theorem usedTasks_append (a b : List Event) :
    usedTasks (a ++ b) = usedTasks a ++ usedTasks b := by
  simp [usedTasks]

theorem deletedTasks_append (a b : List Event) :
    deletedTasks (a ++ b) = deletedTasks a ++ deletedTasks b := by
  simp [deletedTasks]

/-- Two traces without use after free join into one when nothing released
in the first is used in the second. -/
theorem usesFreed_append_false (a b : List Event) (ha : usesFreed a = false)
    (hb : usesFreed b = false) (h : ∀ t ∈ deletedTasks a, t ∉ usedTasks b) :
    usesFreed (a ++ b) = false := by
  induction a with
  | nil => simpa using hb
  | cons e a ih =>
    simp only [usesFreed, Bool.or_eq_false_iff] at ha
    have hrest : ∀ t ∈ deletedTasks a, t ∉ usedTasks b := by
      intro t ht
      apply h t
      simp only [deletedTasks, List.filterMap_cons] at ht ⊢
      cases e.deletedTask with
      | none => exact ht
      | some x => exact List.mem_cons_of_mem _ ht
    simp only [List.cons_append, usesFreed, Bool.or_eq_false_iff]
    refine ⟨?_, ih ha.2 hrest⟩
    cases hd : e.deletedTask with
    | none => rfl
    | some t =>
      have h1 := ha.1
      rw [hd] at h1
      have ht1 : t ∉ usedTasks a := by simpa using h1
      have ht2 : t ∉ usedTasks b := by
        apply h t
        simp [deletedTasks, List.filterMap_cons, hd]
      simp [usedTasks_append, ht1, ht2]

theorem usedTasks_passEvents (p : ParentPtr) (c : TaskPtr) (h : TaskHandle_t) :
    usedTasks (passEvents p c h) = [c, c, c] := by
  simp [usedTasks, passEvents, Event.usedTask]

theorem deletedTasks_passEvents (p : ParentPtr) (c : TaskPtr) (h : TaskHandle_t) :
    deletedTasks (passEvents p c h) = [c] := by
  simp [deletedTasks, passEvents, Event.deletedTask]

theorem usesFreed_passEvents (p : ParentPtr) (c : TaskPtr) (h : TaskHandle_t) :
    usesFreed (passEvents p c h) = false := by
  simp [usesFreed, passEvents, Event.deletedTask, usedTasks]

/-- The passes of `DeleteChildren` use the objects of the registry and no
other. -/
theorem mem_usedTasks_passes (this : ParentPtr) (h : TaskPtr → TaskHandle_t)
    (l : List TaskPtr) (t : TaskPtr) :
    t ∈ usedTasks ((l.map (fun c => passEvents this c (h c))).flatten ++
      [Event.xSemaphoreTake this, Event.children_empty this, Event.xSemaphoreGive this]) ↔
      t ∈ l := by
  induction l with
  | nil => simp [usedTasks, Event.usedTask]
  | cons c rest ih =>
    rw [List.map_cons, List.flatten_cons, List.append_assoc, usedTasks_append,
      usedTasks_passEvents, List.mem_append, ih]
    simp

/-- On a registry without repeated entries the passes of `DeleteChildren` use
no object after its release. -/
theorem usesFreed_passes (this : ParentPtr) (h : TaskPtr → TaskHandle_t) (l : List TaskPtr)
    (hnd : l.Nodup) :
    usesFreed ((l.map (fun c => passEvents this c (h c))).flatten ++
      [Event.xSemaphoreTake this, Event.children_empty this, Event.xSemaphoreGive this]) =
      false := by
  induction l with
  | nil => simp [usesFreed, Event.deletedTask]
  | cons c rest ih =>
    rw [List.map_cons, List.flatten_cons, List.append_assoc]
    have hc : c ∉ rest := (List.nodup_cons.mp hnd).1
    refine usesFreed_append_false _ _ (usesFreed_passEvents this c (h c))
      (ih (List.nodup_cons.mp hnd).2) ?_
    intro t ht
    rw [deletedTasks_passEvents] at ht
    rw [mem_usedTasks_passes]
    simp only [List.mem_singleton] at ht
    rw [ht]
    exact hc

theorem mem_deletedTasks (t : TaskPtr) (evs : List Event) :
    t ∈ deletedTasks evs ↔ Event.delete t ∈ evs := by
  induction evs with
  | nil => simp [deletedTasks]
  | cons e es ih =>
    simp only [deletedTasks, List.filterMap_cons, List.mem_cons] at ih ⊢
    cases e <;> simp [Event.deletedTask, ih]

/-- `DeleteChildren` on a registry without repeated entries, whose entries
are live, uses no freed object. -/
theorem DeleteChildren_usesFreed (this : ParentPtr) (w w2 : World) (es : List Entry)
    (hnd : (w.m_children this).Nodup)
    (halive : ∀ t ∈ w.m_children this, Event.delete t ∉ w.events)
    (hok : usesFreed w.events = false)
    (htr : w2.trace = w.trace ++ es)
    (hev : es.map Entry.ev =
      ((w.m_children this).map (fun c => passEvents this c (w.tasks c).m_taskid)).flatten ++
        [Event.xSemaphoreTake this, Event.children_empty this, Event.xSemaphoreGive this]) :
    usesFreed w2.events = false := by
  have hevents : w2.events = w.events ++ es.map Entry.ev := by
    simp [World.events, htr]
  rw [hevents, hev]
  refine usesFreed_append_false _ _ hok (usesFreed_passes this _ _ hnd) ?_
  intro t ht
  rw [mem_usedTasks_passes]
  intro hmem
  exact halive t hmem ((mem_deletedTasks t _).mp ht)

/-! ## The claims -/

/-- C4 as the code has it.  The registry of `this` has no repeated entry,
its entries are live objects, and nothing runs between the passes of the
call.  Then `Parent::DeleteChildren` returns (with any fuel above the number
of entries), uses no freed object, invokes `Cleanup` once per entry of the
registry, in registry order, and for no other task, and leaves the registry
empty; the other registries and the task fields are untouched.  On an empty
registry it invokes no `Cleanup` and changes no registry and no task. -/
theorem C4_DeleteChildren_cleans_distinct_live_entries (this : ParentPtr) (w : World)
    (hnd : (w.m_children this).Nodup)
    (halive : ∀ t ∈ w.m_children this, Event.delete t ∉ w.events)
    (hok : usesFreed w.events = false) :
    ∃ w2, Parent.DeleteChildren this w = some w2 ∧
      (∀ fuel, (w.m_children this).length < fuel →
        Parent.DeleteChildren.loop this fuel w = some w2) ∧
      usesFreed w2.events = false ∧
      cleanups (newEvents w w2) = w.m_children this ∧
      w2.m_children this = [] ∧
      w2.m_children = Function.update w.m_children this [] ∧
      w2.tasks = w.tasks ∧
      (w.m_children this = [] →
        cleanups (newEvents w w2) = [] ∧ w2.m_children = w.m_children) := by
  obtain ⟨w2, es, h, hfuel, hc, ht, htr, hev, -⟩ := DeleteChildren_spec this w
  have hcl : cleanups (newEvents w w2) = w.m_children this := by
    rw [newEvents_of_append w w2 es htr, hev, cleanups_passes]
    simp [cleanups, Event.cleanupOf]
  refine ⟨w2, h, hfuel, DeleteChildren_usesFreed this w w2 es hnd halive hok htr hev, hcl,
    by simp [hc], hc, ht, ?_⟩
  intro hnil
  refine ⟨by rw [hcl, hnil], ?_⟩
  rw [hc, ← hnil]
  simp

/-- C4 on the registry `[1, 2, 3]` of live tasks: the call returns, each of
the three tasks gets one `Cleanup`, no freed object is used and the registry
is empty afterwards. -/
theorem C4_DeleteChildren_cleans_distinct_live_entries_witness :
    ((World.ofChildren [1, 2, 3]).m_children 0).Nodup ∧
    (∀ t ∈ (World.ofChildren [1, 2, 3]).m_children 0,
      Event.delete t ∉ (World.ofChildren [1, 2, 3]).events) ∧
    usesFreed (World.ofChildren [1, 2, 3]).events = false ∧
    ∃ w2, Parent.DeleteChildren 0 (World.ofChildren [1, 2, 3]) = some w2 ∧
      usesFreed w2.events = false ∧
      cleanups (newEvents (World.ofChildren [1, 2, 3]) w2) = [1, 2, 3] ∧
      w2.m_children 0 = [] := by
  refine ⟨by decide, by decide, by decide, ?_⟩
  obtain ⟨w2, h, -, hfree, hcl, hnil, -⟩ :=
    C4_DeleteChildren_cleans_distinct_live_entries 0 (World.ofChildren [1, 2, 3])
      (by decide) (by decide) (by decide)
  exact ⟨w2, h, hfree, hcl, hnil⟩

/-- C4 fails as stated, in two ways.  On the registry `[1, 1]` the first pass
releases task `1` and leaves its pointer in the registry, so the call does
not clean every entry: its second pass calls into the released object.  And
with no child added by anyone, a self exit of task `2` between the first and
the second pass of a call on `[1, 2, 3]` takes `2` out of the registry, and
the call invokes `Cleanup` for `1` and `3` only. -/
theorem C4_counterexample :
    ¬ cleansEveryEntry 0 (World.ofChildren [1, 1]) ∧
    (∃ w1, Parent.DeleteChildren.passes 0 1 (World.ofChildren [1, 1]) = .cont w1 ∧
      Event.delete 1 ∈ w1.events ∧ w1.m_children 0 = [1]) ∧
    (∃ w2, selfExitRace 0 2 1 (World.ofChildren [1, 2, 3]) = some (true, w2) ∧
      cleanups (newEvents (World.ofChildren [1, 2, 3]) w2) = [1, 3] ∧
      cleanups (newEvents (World.ofChildren [1, 2, 3]) w2) ≠
        (World.ofChildren [1, 2, 3]).m_children 0) := by
  refine ⟨?_, ⟨_, rfl, by decide, by decide⟩, ⟨_, rfl, by decide, by decide⟩⟩
  rintro ⟨w2, h, hfree, -, -⟩
  have hbad : ∀ w3, Parent.DeleteChildren 0 (World.ofChildren [1, 1]) = some w3 →
      usesFreed w3.events = true := by
    intro w3 h3
    have : (Parent.DeleteChildren 0 (World.ofChildren [1, 1])).map
        (fun x => usesFreed x.events) = some true := by decide
    rw [h3] at this
    simpa using this
  rw [hbad w2 h] at hfree
  cases hfree

/-- C5 as the code has it.  The registry of `this` has no repeated entry,
its entries are live objects, and nothing runs between the passes of the
call.  Then `Parent::DeleteChildren` works one entry per critical section:
for a registry of `n` entries the guard is taken and given `n + 1` times,
each pass but the last pops the front entry under the guard and runs that
child's `DeleteTask` after giving the guard, and the last pass finds the
registry empty.  When the `Cleanup` of an entry is invoked the registry holds
exactly the entries that follow it.  No freed object is used. -/
theorem C5_DeleteChildren_one_entry_per_section (this : ParentPtr) (w : World)
    (hnd : (w.m_children this).Nodup)
    (halive : ∀ t ∈ w.m_children this, Event.delete t ∉ w.events)
    (hok : usesFreed w.events = false) :
    ∃ w2, Parent.DeleteChildren this w = some w2 ∧
      usesFreed w2.events = false ∧
      newEvents w w2 =
        ((w.m_children this).map (fun c => passEvents this c (w.tasks c).m_taskid)).flatten ++
          [.xSemaphoreTake this, .children_empty this, .xSemaphoreGive this] ∧
      (newEvents w w2).count (.xSemaphoreTake this) = (w.m_children this).length + 1 ∧
      (newEvents w w2).count (.xSemaphoreGive this) = (w.m_children this).length + 1 ∧
      cleanupSnapshots this (newEntries w w2) = (w.m_children this).tails.tail := by
  obtain ⟨w2, es, h, -, -, -, htr, hev, hs⟩ := DeleteChildren_spec this w
  have hne := (newEvents_of_append w w2 es htr).trans hev
  refine ⟨w2, h, DeleteChildren_usesFreed this w w2 es hnd halive hok htr hev, hne, ?_, ?_, ?_⟩
  · rw [hne, count_take_passes]
  · rw [hne, count_give_passes]
  · rw [newEntries_of_append w w2 es htr, hs]

/-- C5 on the registry `[4, 5]` of live tasks: three critical sections, and
the registry holds `[5]` at the first `Cleanup` and is empty at the
second. -/
theorem C5_DeleteChildren_one_entry_per_section_witness :
    ((World.ofChildren [4, 5]).m_children 0).Nodup ∧
    (∀ t ∈ (World.ofChildren [4, 5]).m_children 0,
      Event.delete t ∉ (World.ofChildren [4, 5]).events) ∧
    usesFreed (World.ofChildren [4, 5]).events = false ∧
    ∃ w2, Parent.DeleteChildren 0 (World.ofChildren [4, 5]) = some w2 ∧
      usesFreed w2.events = false ∧
      (newEvents (World.ofChildren [4, 5]) w2).count (.xSemaphoreTake 0) = 3 ∧
      (newEvents (World.ofChildren [4, 5]) w2).count (.xSemaphoreGive 0) = 3 ∧
      cleanupSnapshots 0 (newEntries (World.ofChildren [4, 5]) w2) = [[5], []] := by
  refine ⟨by decide, by decide, by decide, ?_⟩
  obtain ⟨w2, h, hfree, -, ht, hg, hs⟩ :=
    C5_DeleteChildren_one_entry_per_section 0 (World.ofChildren [4, 5])
      (by decide) (by decide) (by decide)
  exact ⟨w2, h, hfree, ht, hg, hs⟩

/-- C5 fails as stated.  On the registry `[1, 2]` the call returns, but it
does not drain in one critical section: the guard is taken three times and
given three times, the registry still holds `2` when the first `Cleanup` is
invoked, and the guard is taken again after the first `Cleanup`. -/
theorem C5_counterexample :
    ∃ w2, Parent.DeleteChildren 0 (World.ofChildren [1, 2]) = some w2 ∧
      ¬ drainsInOneSection 0 (World.ofChildren [1, 2]) w2 ∧
      (newEvents (World.ofChildren [1, 2]) w2).count (.xSemaphoreTake 0) = 3 ∧
      (newEvents (World.ofChildren [1, 2]) w2).count (.xSemaphoreGive 0) = 3 ∧
      (cleanupSnapshots 0 (newEntries (World.ofChildren [1, 2]) w2)).head? = some [2] ∧
      Event.xSemaphoreTake 0 ∈ afterFirstCleanup (newEvents (World.ofChildren [1, 2]) w2) := by
  refine ⟨_, rfl, ?_, by decide, by decide, by decide, by decide⟩
  intro h
  exact absurd h.1 (by decide)

/-- C6. `Parent::AddChild(t)` followed at once by `Parent::RemoveChild(t)`
returns true and leaves every registry equal to what it was before the
`AddChild`, whether or not `t` was already in it. -/
theorem C6_AddChild_RemoveChild_roundtrip (this : ParentPtr) (t : TaskPtr) (w : World) :
    (Parent.RemoveChild this t (Parent.AddChild this t w)).1 = true ∧
    (Parent.RemoveChild this t (Parent.AddChild this t w)).2.m_children = w.m_children := by
  have hadd : (Parent.AddChild this t w).m_children =
      Function.update w.m_children this (t :: w.m_children this) := by
    simp [Parent.AddChild, World.setChildren]
  rw [RemoveChild_fst, RemoveChild_children, hadd]
  simp

/-- C9. The effects of `TaskBase::DeleteTask` are, in this order and nothing
else: the `Cleanup` hook of the task, the read of `m_taskid` from the task,
`vTaskDelete` of the handle the task held on entry, `delete this`.  The read
of the handle comes before the task object is released. -/
theorem C9_DeleteTask_effect_order (this : TaskPtr) (w : World) :
    newEvents w (TaskBase.DeleteTask this w) =
      [.Cleanup this, .read_m_taskid this, .vTaskDelete (w.tasks this).m_taskid,
       .delete this] := by
  rw [newEvents_of_append w _ _ (DeleteTask_trace this w)]
  simp

/-- C1. Exactly-once claim of a task.  The registry of `this` holds `T`
once.  `DeleteChildren` makes `k` passes (each one pops an entry under the
guard and runs its `DeleteTask`), then the self exit of `T` calls
`RemoveChild(T)`, then `DeleteChildren` makes its remaining passes.  For
every `k` the run completes and exactly one side has claimed `T`: either
`RemoveChild` returned true and `DeleteChildren` never ran `DeleteTask` on
`T`, or `RemoveChild` returned false and `DeleteChildren` ran `DeleteTask`
on `T` once.  The registry is empty afterwards. -/
theorem C1_exactly_one_claim (this : ParentPtr) (T : TaskPtr) (k : Nat) (w : World)
    (h : (w.m_children this).count T = 1) :
    ∃ r w2, selfExitRace this T k w = some (r, w2) ∧
      ((r = true ∧ (cleanups (newEvents w w2)).count T = 0) ∨
        (r = false ∧ (cleanups (newEvents w w2)).count T = 1)) ∧
      w2.m_children this = [] := by
  obtain ⟨w1, es1, hc1, htr1, hcl1, hp1⟩ := passes_spec this (w.m_children this) k w rfl
  obtain ⟨es2, htr2, hcl2⟩ := RemoveChild_cleanups this T w1
  have hreg1 : w1.m_children this = (w.m_children this).drop k := by simp [hc1]
  have hsplit : ((w.m_children this).take k).count T + ((w.m_children this).drop k).count T = 1 := by
    rw [← List.count_append, List.take_append_drop, h]
  by_cases hk : k ≤ (w.m_children this).length
  · -- `RemoveChild` runs between two passes
    rw [if_pos hk] at hp1
    obtain ⟨w3, es3, hl3, hc3, -, htr3, hev3, -⟩ :=
      loop_spec this _ (Parent.RemoveChild this T w1).2
        (((Parent.RemoveChild this T w1).2.m_children this).length + 1) rfl (by omega)
    refine ⟨(Parent.RemoveChild this T w1).1, w3, ?_, ?_, by simp [hc3]⟩
    · simp only [selfExitRace, hp1, hl3, Option.map_some']
    · have hne : newEvents w w3 = (es1 ++ es2 ++ es3).map Entry.ev := by
        apply newEvents_of_append
        rw [htr3, htr2, htr1]
        simp
      have hcl3 : cleanups (es3.map Entry.ev) =
          ((w.m_children this).drop k).erase T := by
        rw [hev3, cleanups_passes, RemoveChild_children]
        simp [hreg1, cleanups, Event.cleanupOf]
      rw [hne, List.map_append, List.map_append, cleanups_append, cleanups_append, hcl1, hcl2,
        hcl3, RemoveChild_fst, hreg1]
      by_cases hm : T ∈ (w.m_children this).drop k
      · left
        have hpos : 0 < ((w.m_children this).drop k).count T := List.count_pos_iff.mpr hm
        refine ⟨by simp [hm], ?_⟩
        simp only [List.append_nil, List.count_append, List.count_erase_self]
        omega
      · right
        refine ⟨by simp [hm], ?_⟩
        rw [List.erase_of_not_mem hm]
        simp only [List.append_nil, List.count_append]
        exact hsplit
  · -- `DeleteChildren` has returned before `RemoveChild` runs
    rw [if_neg hk] at hp1
    have hk2 : (w.m_children this).length ≤ k := by omega
    have hnil : w1.m_children this = [] := by
      rw [hreg1]
      exact List.drop_eq_nil_of_le hk2
    refine ⟨(Parent.RemoveChild this T w1).1, (Parent.RemoveChild this T w1).2, ?_, ?_, ?_⟩
    · simp only [selfExitRace, hp1]
    · have hne : newEvents w (Parent.RemoveChild this T w1).2 = (es1 ++ es2).map Entry.ev := by
        apply newEvents_of_append
        rw [htr2, htr1]
        simp
      right
      rw [hne, List.map_append, cleanups_append, hcl1, hcl2, RemoveChild_fst, hnil,
        List.take_of_length_le hk2]
      simp [h]
    · rw [RemoveChild_children, hnil]
      simp

/-- C1 at a concrete race: registry `[1, 2, 3]`, task `2`, `RemoveChild`
after the first pass. -/
theorem C1_exactly_one_claim_witness :
    ((World.ofChildren [1, 2, 3]).m_children 0).count 2 = 1 ∧
    ∃ r w2, selfExitRace 0 2 1 (World.ofChildren [1, 2, 3]) = some (r, w2) ∧
      ((r = true ∧ (cleanups (newEvents (World.ofChildren [1, 2, 3]) w2)).count 2 = 0) ∨
        (r = false ∧ (cleanups (newEvents (World.ofChildren [1, 2, 3]) w2)).count 2 = 1)) ∧
      w2.m_children 0 = [] :=
  ⟨by decide, C1_exactly_one_claim 0 2 1 (World.ofChildren [1, 2, 3]) (by decide)⟩

/-- C2. `TaskBase::DeleteFromParent` destroys the task, that is, its
teardown effects are `delete this` and then `vTaskDelete` of its handle,
exactly when `m_parent` is null or `m_parent->RemoveChild(this)` returned
true.  With a parent and `RemoveChild` returning false it has no teardown
effect at all and leaves every registry unchanged.  With no parent it
touches no mutex and no registry, so `RemoveChild` is not called. -/
theorem C2_DeleteFromParent_destroys_iff_claimed (this : TaskPtr) (w : World) :
    ((newEvents w (TaskBase.DeleteFromParent this w)).filter Event.isTeardown =
        [.delete this, .vTaskDelete (w.tasks this).m_taskid] ↔
      ((w.tasks this).m_parent = none ∨
        ∃ p, (w.tasks this).m_parent = some p ∧
          (Parent.RemoveChild p this (TaskBase.DeleteFromParent.callWorld this w)).1 = true)) ∧
    (∀ p, (w.tasks this).m_parent = some p →
      (Parent.RemoveChild p this (TaskBase.DeleteFromParent.callWorld this w)).1 = false →
        (newEvents w (TaskBase.DeleteFromParent this w)).filter Event.isTeardown = [] ∧
        (TaskBase.DeleteFromParent this w).m_children = w.m_children) ∧
    ((w.tasks this).m_parent = none →
      (newEvents w (TaskBase.DeleteFromParent this w)).filter Event.isRegistry = [] ∧
      (TaskBase.DeleteFromParent this w).m_children = w.m_children) := by
  rcases DeleteFromParent_facts this w with ⟨hp, hc, hev⟩ | ⟨p, hp, hm, hr, hc, hev⟩ |
    ⟨p, hp, hm, hr, hc, hev⟩
  · refine ⟨?_, ?_, ?_⟩
    · rw [hev]
      simp [hp, Event.isTeardown]
    · intro q hq
      rw [hp] at hq
      cases hq
    · intro _
      rw [hev]
      exact ⟨by simp [Event.isRegistry], hc⟩
  · refine ⟨?_, ?_, ?_⟩
    · rw [hev]
      have hright : ∃ q, (w.tasks this).m_parent = some q ∧
          (Parent.RemoveChild q this (TaskBase.DeleteFromParent.callWorld this w)).1 = true :=
        ⟨p, hp, hr⟩
      by_cases hh : (w.m_children p).head? = some this
      · simpa [hh, Event.isTeardown] using Or.inr hright
      · simpa [hh, Event.isTeardown] using Or.inr hright
    · intro q hq hf
      rw [hp] at hq
      cases hq
      rw [hr] at hf
      cases hf
    · intro hn
      rw [hp] at hn
      cases hn
  · refine ⟨?_, ?_, ?_⟩
    · rw [hev]
      constructor
      · intro h
        simp [Event.isTeardown] at h
      · rintro (hn | ⟨q, hq, ht⟩)
        · rw [hp] at hn
          cases hn
        · rw [hp] at hq
          cases hq
          rw [hr] at ht
          cases ht
    · intro q _ _
      rw [hev]
      exact ⟨by simp [Event.isTeardown], hc⟩
    · intro hn
      rw [hp] at hn
      cases hn

/-- C8 as the code has it.  `TaskBase::CreateTask` and
`TaskBase::CreateTaskPinned` return nothing: whatever the scheduler answers,
the caller gets the same value.  No registry is changed by either call.  On
failure the task fields are left as they were, on success `m_taskid` holds
the new handle. -/
theorem C8_CreateTask_drops_scheduler_result (s1 s2 : BaseType_t) (h : TaskHandle_t)
    (this : TaskPtr) (core : Int) (name : String) (stack : Int) (priority : Nat) (w : World) :
    (TaskBase.CreateTask s1 this name stack priority w).1 =
      (TaskBase.CreateTask s2 this name stack priority w).1 ∧
    (TaskBase.CreateTaskPinned s1 this core name stack priority w).1 =
      (TaskBase.CreateTaskPinned s2 this core name stack priority w).1 ∧
    (TaskBase.CreateTask s1 this name stack priority w).2.m_children = w.m_children ∧
    (TaskBase.CreateTaskPinned s1 this core name stack priority w).2.m_children =
      w.m_children ∧
    (TaskBase.CreateTask .errCOULD_NOT_ALLOCATE_REQUIRED_MEMORY this name stack priority
      w).2.tasks = w.tasks ∧
    (TaskBase.CreateTaskPinned .errCOULD_NOT_ALLOCATE_REQUIRED_MEMORY this core name stack
      priority w).2.tasks = w.tasks ∧
    ((TaskBase.CreateTask (.pdPASS h) this name stack priority w).2.tasks this).m_taskid = h ∧
    ((TaskBase.CreateTaskPinned (.pdPASS h) this core name stack priority w).2.tasks
      this).m_taskid = h := by
  refine ⟨rfl, rfl, ?_, ?_, rfl, rfl, ?_, ?_⟩
  · cases s1 <;> rfl
  · cases s1 <;> rfl
  · simp [TaskBase.CreateTask, World.setTaskid]
  · simp [TaskBase.CreateTaskPinned, World.setTaskid]

/-- C8 fails as stated.  A creation that fails and a creation that succeeds
give the caller the same result, for `CreateTask` and for
`CreateTaskPinned`; with the handle `101`, which task `1` already holds, the
task fields and the registries are the same too. -/
theorem C8_counterexample :
    ¬ ((TaskBase.CreateTask .errCOULD_NOT_ALLOCATE_REQUIRED_MEMORY 1 exampleName 4096 5
          World.init).1 ≠
        (TaskBase.CreateTask (.pdPASS 101) 1 exampleName 4096 5 World.init).1) ∧
    ¬ ((TaskBase.CreateTaskPinned .errCOULD_NOT_ALLOCATE_REQUIRED_MEMORY 1 0 exampleName 4096 5
          World.init).1 ≠
        (TaskBase.CreateTaskPinned (.pdPASS 101) 1 0 exampleName 4096 5 World.init).1) ∧
    (TaskBase.CreateTask .errCOULD_NOT_ALLOCATE_REQUIRED_MEMORY 1 exampleName 4096 5
        World.init).2.tasks 1 =
      (TaskBase.CreateTask (.pdPASS 101) 1 exampleName 4096 5 World.init).2.tasks 1 ∧
    (TaskBase.CreateTask .errCOULD_NOT_ALLOCATE_REQUIRED_MEMORY 1 exampleName 4096 5
        World.init).2.m_children 0 =
      (TaskBase.CreateTask (.pdPASS 101) 1 exampleName 4096 5 World.init).2.m_children 0 :=
  ⟨fun h => h rfl, fun h => h rfl, by decide, by decide⟩

/-- C10. After `Service` returns, `TaskBase::Task` never invokes the
`Cleanup` hook.  When the task has no parent or is in its parent's registry
(so that `RemoveChild` returns true) the effects end with: read `m_taskid`,
`delete this`, `vTaskDelete` of the handle read before the release, and no
other teardown effect comes before them.  Otherwise there is no teardown
effect. -/
theorem C10_self_exit_effect_order (Service : TaskPtr → World → World) (me : TaskPtr)
    (w : World) :
    cleanups (newEvents (Service me w) (TaskBase.Task Service me w)) = [] ∧
    ((((Service me w).tasks me).m_parent = none ∨
        ∃ p, ((Service me w).tasks me).m_parent = some p ∧ me ∈ (Service me w).m_children p) →
      ∃ pre, newEvents (Service me w) (TaskBase.Task Service me w) =
          pre ++ [.read_m_taskid me, .delete me,
            .vTaskDelete ((Service me w).tasks me).m_taskid] ∧
        pre.filter Event.isTeardown = []) ∧
    (¬ (((Service me w).tasks me).m_parent = none ∨
        ∃ p, ((Service me w).tasks me).m_parent = some p ∧ me ∈ (Service me w).m_children p) →
      (newEvents (Service me w) (TaskBase.Task Service me w)).filter Event.isTeardown = []) := by
  have hT : TaskBase.Task Service me w = TaskBase.DeleteFromParent me (Service me w) := rfl
  rw [hT]
  generalize Service me w = w1
  rcases DeleteFromParent_facts me w1 with ⟨hp, -, hev⟩ | ⟨p, hp, hm, -, -, hev⟩ |
    ⟨p, hp, hm, -, -, hev⟩
  · rw [hev]
    refine ⟨by simp [cleanups, Event.cleanupOf], ?_, ?_⟩
    · intro _
      exact ⟨[.read_m_parent me], by simp, by simp [Event.isTeardown]⟩
    · intro hn
      exact absurd (Or.inl hp) hn
  · rw [hev]
    refine ⟨?_, ?_, ?_⟩
    · by_cases hh : (w1.m_children p).head? = some me <;>
        simp [hh, cleanups, Event.cleanupOf]
    · intro _
      refine ⟨[.read_m_parent me, .read_m_parent me, .xSemaphoreTake p, .children_begin p,
        if (w1.m_children p).head? = some me then .pop_front p else .erase_after p,
        .xSemaphoreGive p], by simp, ?_⟩
      by_cases hh : (w1.m_children p).head? = some me <;> simp [hh, Event.isTeardown]
    · intro hn
      exact absurd (Or.inr ⟨p, hp, hm⟩) hn
  · rw [hev]
    refine ⟨by simp [cleanups, Event.cleanupOf], ?_, ?_⟩
    · rintro (hn | ⟨q, hq, hmq⟩)
      · rw [hp] at hn
        cases hn
      · rw [hp] at hq
        cases hq
        exact absurd hmq hm
    · intro _
      simp [Event.isTeardown]

/-- C7 as the code has it.  Calls are made on the parent `this`, whose
registry is empty at the start.  The sequence always completes.  If it
contains an `AddChild(t)` followed neither by a later `RemoveChild(t)` that
returned true nor by a later `DeleteChildren`, then `t` is in the registry
at the end.  If moreover no `AddChild(t)` is called while `t` is in the
registry, then `t` is in the registry at the end exactly when the sequence
contains such an `AddChild(t)`. -/
theorem C7_presence_when_added_once (this : ParentPtr) (t : TaskPtr) (ops : List Op)
    (w : World) (hw : w.m_children this = []) :
    ∃ w2, runOps this ops w = some w2 ∧
      (addedAndKept this t ops w = true → t ∈ w2.m_children this) ∧
      (addsWhenAbsent this t ops w = true →
        (t ∈ w2.m_children this ↔ addedAndKept this t ops w = true)) := by
  obtain ⟨w2, hr⟩ := runOps_total this ops w
  refine ⟨w2, hr, addedAndKept_mem this t ops w w2 hr, ?_⟩
  intro ha
  constructor
  · intro hm
    rcases mem_addedAndKept this t ops w w2 hr ha (by simp [hw]) hm with h | ⟨h, -⟩
    · exact h
    · rw [hw] at h
      cases h
  · exact addedAndKept_mem this t ops w w2 hr

/-- C7 on a concrete sequence: task `2` is added, removed, added again and
kept, while task `1` comes and goes and a `DeleteChildren` runs in
between. -/
theorem C7_presence_when_added_once_witness :
    World.init.m_children 0 = [] ∧
    ∃ w2, runOps 0 [.AddChild 2, .AddChild 1, .RemoveChild 2, .DeleteChildren, .AddChild 2,
        .AddChild 1, .RemoveChild 1] World.init = some w2 ∧
      (addedAndKept 0 2 [.AddChild 2, .AddChild 1, .RemoveChild 2, .DeleteChildren, .AddChild 2,
        .AddChild 1, .RemoveChild 1] World.init = true → 2 ∈ w2.m_children 0) ∧
      (addsWhenAbsent 0 2 [.AddChild 2, .AddChild 1, .RemoveChild 2, .DeleteChildren,
        .AddChild 2, .AddChild 1, .RemoveChild 1] World.init = true →
        (2 ∈ w2.m_children 0 ↔
          addedAndKept 0 2 [.AddChild 2, .AddChild 1, .RemoveChild 2, .DeleteChildren,
            .AddChild 2, .AddChild 1, .RemoveChild 1] World.init = true)) :=
  ⟨rfl, C7_presence_when_added_once 0 2 _ World.init rfl⟩

/-- C7 fails as stated.  From the empty registry, `AddChild(1)`,
`AddChild(1)`, `RemoveChild(1)` leaves `1` in the registry, although each
`AddChild(1)` is followed by a `RemoveChild(1)` that returned true. -/
theorem C7_counterexample :
    ∃ w2, World.init.m_children 0 = [] ∧
      runOps 0 [.AddChild 1, .AddChild 1, .RemoveChild 1] World.init = some w2 ∧
      w2.m_children 0 = [1] ∧
      addedAndKept 0 1 [.AddChild 1, .AddChild 1, .RemoveChild 1] World.init = false ∧
      ¬ (1 ∈ w2.m_children 0 ↔
        addedAndKept 0 1 [.AddChild 1, .AddChild 1, .RemoveChild 1] World.init = true) :=
  ⟨_, rfl, rfl, by decide, by decide, by decide⟩

/-- C2 on a task that lost the race: task `7` has parent `0` but is not in
its registry `[2, 1]`, so `RemoveChild` returns false and nothing is torn
down. -/
theorem C2_DeleteFromParent_destroys_iff_claimed_witness :
    ((World.ofChildren [2, 1]).tasks 7).m_parent = some 0 ∧
    (Parent.RemoveChild 0 7
      (TaskBase.DeleteFromParent.callWorld 7 (World.ofChildren [2, 1]))).1 = false ∧
    (newEvents (World.ofChildren [2, 1])
      (TaskBase.DeleteFromParent 7 (World.ofChildren [2, 1]))).filter Event.isTeardown = [] ∧
    (TaskBase.DeleteFromParent 7 (World.ofChildren [2, 1])).m_children =
      (World.ofChildren [2, 1]).m_children :=
  ⟨rfl, by decide,
    (C2_DeleteFromParent_destroys_iff_claimed 7 (World.ofChildren [2, 1])).2.1 0 rfl
      (by decide)⟩

/-- C3 on the registry `[1, 2, 3, 2]`: removing `2` returns true and takes
out the first `2` only. -/
theorem C3_RemoveChild_first_occurrence_witness :
    (Parent.RemoveChild 0 2 (World.ofChildren [1, 2, 3, 2])).1 = true ∧
    (∃ pre post, (World.ofChildren [1, 2, 3, 2]).m_children 0 = pre ++ 2 :: post ∧ 2 ∉ pre ∧
      (Parent.RemoveChild 0 2 (World.ofChildren [1, 2, 3, 2])).2.m_children 0 = pre ++ post) ∧
    (Parent.RemoveChild 0 2 (World.ofChildren [1, 2, 3, 2])).2.m_children 0 = [1, 3, 2] :=
  ⟨by decide,
    ((C3_RemoveChild_first_occurrence 0 2 (World.ofChildren [1, 2, 3, 2])).2.2 (by decide)).1,
    by decide⟩

/-- C10 on task `1` in the registry `[2, 1]` of its parent, with a `Service`
that does nothing: the task destroys itself, state first, handle second. -/
theorem C10_self_exit_effect_order_witness :
    (∃ p, ((World.ofChildren [2, 1]).tasks 1).m_parent = some p ∧
      1 ∈ (World.ofChildren [2, 1]).m_children p) ∧
    ∃ pre, newEvents (World.ofChildren [2, 1])
        (TaskBase.Task (fun _ w => w) 1 (World.ofChildren [2, 1])) =
          pre ++ [.read_m_taskid 1, .delete 1, .vTaskDelete 101] ∧
        pre.filter Event.isTeardown = [] :=
  ⟨⟨0, rfl, by decide⟩,
    (C10_self_exit_effect_order (fun _ w => w) 1 (World.ofChildren [2, 1])).2.1
      (Or.inr ⟨0, rfl, by decide⟩)⟩

/-! ## Twizy power monitor -/

/-- With the car switched on, a GPS lock that is not stale makes
`PowerCollectData` reset the level section and touch nothing else. -/
theorem PowerCollectData_fresh_gps (c : PwrConsts) (car_altitude : Int) (s : Twizy)
    (hon : s.twizy_status &&& c.CAN_STATUS_KEYON ≠ 0) :
    PowerCollectData c false car_altitude s =
      some { s with twizy_level_odo := 0, twizy_level_alt := 0 } := by
  simp [PowerCollectData, hon]

/-- With the car switched on and a stale GPS lock, `PowerCollectData` starts a
new section when none is open. -/
theorem PowerCollectData_stale_gps_start (c : PwrConsts) (car_altitude : Int) (s : Twizy)
    (hon : s.twizy_status &&& c.CAN_STATUS_KEYON ≠ 0) (hodo : s.twizy_level_odo = 0) :
    PowerCollectData c true car_altitude s =
      some { s with
        twizy_level_odo := s.twizy_odometer
        twizy_level_alt := car_altitude
        twizy_level_use := 0
        twizy_level_rec := 0 } := by
  simp [PowerCollectData, hon, hodo]

/-- C11 on the code.  The car is switched on, a section is open since
odometer 5000 at altitude 100 m, the car is now at odometer 5100 and
altitude 120 m.  With a stale GPS lock the code does not reset the section:
it collects it (1000 m, 20 m up, sums 7 and 3) and opens the next one at the
current odometer.  With a GPS lock that is not stale the code resets the
section and collects nothing. -/
theorem C11_PowerCollectData_gps_test_inverted :
    exampleTwizy.twizy_status &&& examplePwrConsts.CAN_STATUS_KEYON ≠ 0 ∧
    PowerCollectData examplePwrConsts true 120 exampleTwizy =
      some { exampleTwizy with
        twizy_level_odo := 5100
        twizy_level_alt := 120
        twizy_level_use := 0
        twizy_level_rec := 0
        twizy_levelpwr_UP := { dist := 1000, hsum := 20, use := 7, recd := 3 } } ∧
    PowerCollectData examplePwrConsts false 120 exampleTwizy =
      some { exampleTwizy with twizy_level_odo := 0, twizy_level_alt := 0 } := by
  refine ⟨by decide, by decide, by decide⟩

/-- A computation whose continuation always fails has no value. -/
theorem bind_eq_none_of {α β : Type} (o : Option α) (f : α → Option β)
    (h : ∀ a, f a = none) : o.bind f = none := by
  cases o with
  | none => rfl
  | some a => exact h a

/-- The efficiency arguments divide by `pwr_use / 1000`: below 1000 they have
no value. -/
theorem wpk_none_of_lt (c : PwrConsts) (pwr_use pwr_rec : Nat) (dist factor : Int)
    (h : pwr_use < 1000) : CommandPower.wpk c pwr_use pwr_rec dist factor = none := by
  have hk : udiv pwr_use 1000 = some 0 := by simp [udiv, Nat.div_eq_of_lt h]
  have hr : udiv pwr_rec 0 = none := by simp [udiv]
  unfold CommandPower.wpk
  simp only [hk]
  cases cdiv (toLong (usub pwr_use pwr_rec)) dist with
  | none => rfl
  | some q =>
    simp only [Option.bind_eq_bind, Option.some_bind]
    cases cdiv (toLong (toLong (q * factor) +
        (if toLong (usub pwr_use pwr_rec) ≥ 0 then (c.WH_RND : Int) else -(c.WH_RND : Int))))
        c.WH_DIV with
    | none => rfl
    | some w => simp [hr]

/-- A report line whose guard passes with `pwr_use` below 1000 divides by
zero. -/
theorem sect_none_of_lt (c : PwrConsts) (line : Line) (lead : Option (List Int))
    (pwr_use pwr_rec : Nat) (dist factor : Int) (h0 : 0 < pwr_use) (h : pwr_use < 1000)
    (hd : 0 < dist) : CommandPower.sect c line lead pwr_use pwr_rec dist factor = none := by
  unfold CommandPower.sect
  rw [if_pos ⟨h0, hd⟩, wpk_none_of_lt c pwr_use pwr_rec dist factor h]
  cases lead <;> rfl

/-- A computation has a value when its first step has one and its
continuation always has one. -/
theorem bind_isSome_of {α β : Type} (o : Option α) (f : α → Option β)
    (ho : o.isSome = true) (h : ∀ a, (f a).isSome = true) : (o.bind f).isSome = true := by
  cases o with
  | none => cases ho
  | some a => exact h a

theorem udiv_isSome (a : Nat) {b : Nat} (h : 0 < b) : (udiv a b).isSome = true := by
  simp [udiv, Nat.pos_iff_ne_zero.mp h]

theorem statsSpeed_isSome (c : PwrConsts) (x : speedpwr) (hwh : 0 < c.WH_DIV) :
    (CommandPower.statsSpeed c x).isSome = true := by
  simp [CommandPower.statsSpeed, udiv, Nat.pos_iff_ne_zero.mp hwh]

theorem statsLevel_isSome (c : PwrConsts) (x : levelpwr) (hwh : 0 < c.WH_DIV) :
    (CommandPower.statsLevel c x).isSome = true := by
  simp [CommandPower.statsLevel, udiv, Nat.pos_iff_ne_zero.mp hwh]

theorem wh_isSome (c : PwrConsts) (v : Nat) (hwh : 0 < c.WH_DIV) :
    (CommandPower.wh c v).isSome = true :=
  udiv_isSome _ hwh

theorem prc_isSome (d pwr_dist : Nat) (h : 0 < pwr_dist) :
    (CommandPower.prc d pwr_dist).isSome = true := by
  simp [CommandPower.prc, udiv, Nat.pos_iff_ne_zero.mp h]

theorem kps_isSome (x : speedpwr) : (CommandPower.kps x).isSome = true := by
  unfold CommandPower.kps
  split
  · next h => simp [udiv, Nat.pos_iff_ne_zero.mp h]
  · rfl

/-- From 1000 on, the efficiency arguments have a value. -/
theorem wpk_isSome (c : PwrConsts) (pwr_use pwr_rec : Nat) (dist factor : Int)
    (hwh : 0 < c.WH_DIV) (hd : 0 < dist) (hu : 1000 ≤ pwr_use) :
    (CommandPower.wpk c pwr_use pwr_rec dist factor).isSome = true := by
  have hk : pwr_use / 1000 ≠ 0 := Nat.pos_iff_ne_zero.mp (Nat.div_pos hu (by decide))
  have hw : (c.WH_DIV : Int) ≠ 0 := by exact_mod_cast Nat.pos_iff_ne_zero.mp hwh
  simp [CommandPower.wpk, udiv, cdiv, hk, hw, ne_of_gt hd]

/-- A report line has a value when its `pwr_use` is zero or at least 1000. -/
theorem sect_isSome (c : PwrConsts) (line : Line) (lead : Option (List Int))
    (pwr_use pwr_rec : Nat) (dist factor : Int) (hwh : 0 < c.WH_DIV)
    (hl : lead.isSome = true) (hu : pwr_use = 0 ∨ 1000 ≤ pwr_use) :
    (CommandPower.sect c line lead pwr_use pwr_rec dist factor).isSome = true := by
  unfold CommandPower.sect
  split
  · next h =>
    have hu2 : 1000 ≤ pwr_use := by
      rcases hu with h0 | h1
      · omega
      · exact h1
    exact bind_isSome_of _ _ hl (fun _ =>
      bind_isSome_of _ _ (wpk_isSome c pwr_use pwr_rec dist factor hwh h.2 hu2) (fun _ => rfl))
  · rfl

theorem map_pure_isSome {α β γ : Type} (o : Option α) (g : α → β) (f : β → γ)
    (h : o.isSome = true) :
    (Option.map f (o.bind (fun a => pure (g a)))).isSome = true := by
  cases o with
  | none => cases h
  | some a => rfl

/-- Apart from the divisor `pwr_use / 1000`, no integer division of
`CommandPower` divides by zero: with `WH_DIV` positive the command has a
value whenever each `use` counter that a report line tests is zero or at
least 1000. -/
theorem CommandPower_isSome (c : PwrConsts) (fdist : Nat → Nat → Nat → Int) (s : Twizy)
    (verbosity : Int) (name : String) (hwh : 0 < c.WH_DIV)
    (ht : ulong (ulong (s.twizy_speedpwr_CONST.use + s.twizy_speedpwr_ACCEL.use)
      + s.twizy_speedpwr_DECEL.use) = 0 ∨
      1000 ≤ ulong (ulong (s.twizy_speedpwr_CONST.use + s.twizy_speedpwr_ACCEL.use)
        + s.twizy_speedpwr_DECEL.use))
    (hc : s.twizy_speedpwr_CONST.use = 0 ∨ 1000 ≤ s.twizy_speedpwr_CONST.use)
    (ha : s.twizy_speedpwr_ACCEL.use = 0 ∨ 1000 ≤ s.twizy_speedpwr_ACCEL.use)
    (hd : s.twizy_speedpwr_DECEL.use = 0 ∨ 1000 ≤ s.twizy_speedpwr_DECEL.use)
    (hup : s.twizy_levelpwr_UP.use = 0 ∨ 1000 ≤ s.twizy_levelpwr_UP.use)
    (hdn : s.twizy_levelpwr_DOWN.use = 0 ∨ 1000 ≤ s.twizy_levelpwr_DOWN.use) :
    (CommandPower c fdist s verbosity name).isSome = true := by
  unfold CommandPower
  repeat' first
    | (refine bind_isSome_of _ _ ?_ (fun _ => ?_))
    | exact Option.isSome_some
    | exact statsSpeed_isSome c _ hwh
    | exact statsLevel_isSome c _ hwh
    | exact wh_isSome c _ hwh
    | exact prc_isSome _ _ (by assumption)
    | exact udiv_isSome _ (by assumption)
    | exact udiv_isSome _ (by decide)
    | exact sect_isSome c _ _ _ _ _ _ hwh Option.isSome_some (by assumption)
    | exact sect_isSome c _ _ _ _ _ _ hwh (map_pure_isSome _ _ _ (kps_isSome _)) (by assumption)
    | split

/-- At the start of a trip (500 units used in total) the first efficiency
line of the report divides by zero as soon as the corrected distance is
positive. -/
theorem CommandPower_start_of_trip (fdist : Nat → Nat → Nat → Int)
    (hd : 0 < fdist 100 100 100) :
    CommandPower examplePwrConsts fdist startTwizy 150 reportName = none := by
  have hname : ¬ (reportName = "stats") := by decide
  have e1 : usub startTwizy.twizy_odometer startTwizy.twizy_odometer_tripstart = 100 := by
    decide
  have e2 : ulong (ulong (startTwizy.twizy_speedpwr_CONST.dist +
      startTwizy.twizy_speedpwr_ACCEL.dist) + startTwizy.twizy_speedpwr_DECEL.dist) = 100 := by
    decide
  have e3 : ulong (ulong (startTwizy.twizy_speedpwr_CONST.use +
      startTwizy.twizy_speedpwr_ACCEL.use) + startTwizy.twizy_speedpwr_DECEL.use) = 500 := by
    decide
  have ht : ∀ pr, CommandPower.sect examplePwrConsts .trip_wpk (some []) 500 pr
      (fdist 100 100 100) 10000 = none :=
    fun pr => sect_none_of_lt _ _ _ _ _ _ _ (by decide) (by decide) hd
  unfold CommandPower
  rw [if_neg hname]
  apply bind_eq_none_of
  intro prc
  split
  · next h => exact absurd h (by decide)
  · dsimp only
    rw [if_neg (show ¬ (reportName = "totals") by decide),
      if_pos (show (150 : Int) ≥ examplePwrConsts.COMMAND_RESULT_MINIMAL by decide),
      e1, e2, e3]
    simp only [ht]
    rfl

/-- C12 on the code.  Command `report`, verbosity 1024, 5000 units used at
constant speed and 500 units used uphill over 100 m: whatever the float
computation of the corrected distances gives, `CommandPower` executes an
integer division by zero.  The guard of the uphill line passes
(`pwr_use = 500 > 0`, `dist = 100 > 0`) and the divisor `pwr_use / 1000` is
`0`. -/
theorem C12_CommandPower_report_divides_by_zero (fdist : Nat → Nat → Nat → Int) :
    CommandPower examplePwrConsts fdist reportTwizy 1024 reportName = none ∧
    0 < examplePwrConsts.WH_DIV ∧ 0 < examplePwrConsts.AH_DIV ∧
    reportTwizy.twizy_levelpwr_UP.use > 0 ∧ toLong reportTwizy.twizy_levelpwr_UP.dist > 0 ∧
    udiv reportTwizy.twizy_levelpwr_UP.use 1000 = some 0 := by
  refine ⟨?_, by decide, by decide, by decide, by decide, by decide⟩
  have hup : CommandPower.sect examplePwrConsts .sect_up
      (some [(reportTwizy.twizy_levelpwr_UP.hsum : Int)])
      reportTwizy.twizy_levelpwr_UP.use reportTwizy.twizy_levelpwr_UP.recd
      (toLong reportTwizy.twizy_levelpwr_UP.dist) 1000 = none :=
    sect_none_of_lt _ _ _ _ _ _ _ (by decide) (by decide) (by decide)
  have hname : ¬ (reportName = "stats") := by decide
  have hname2 : ¬ (reportName = "totals") := by decide
  unfold CommandPower
  rw [if_neg hname]
  apply bind_eq_none_of
  intro prc
  split
  · next h => exact absurd h (by decide)
  · dsimp only
    apply bind_eq_none_of
    intro o1
    split
    · rw [hup]
      rfl
    · next h => exact absurd (show (1024 : Int) ≥ examplePwrConsts.COMMAND_RESULT_SMS by decide) h

end OVMS
